import Mathlib

/-!
Verification of the crystallographic computation pipeline of the strFac web
application (files `parseCIF.js` and `performCrystallographicAnalysis.js`).

The JavaScript numbers are modelled as real numbers (`ℝ`).  Two JS-specific
conventions are made explicit:

* `Math.round x` is `⌊x + 1/2⌋` (ties go towards `+∞`), modelled by `jsRound`;
* `Math.sqrt` of a negative number is `NaN` in JS while `Real.sqrt` is `0`;
  whenever this matters the radicand is analysed separately.

Plot calls (`Plotly`, `CanvasJS`) are the UI boundary: the model returns the
data those calls receive.  `console.log` / `console.warn` calls are ignored;
an early `return` after `showMessage(..., "error")` is modelled as `none`.
-/

set_option maxHeartbeats 1000000
set_option linter.unusedVariables false

noncomputable section

namespace StrFac

/-- A 3-component Cartesian vector (a JS array `[v[0], v[1], v[2]]`). -/
@[ext]
structure Vec3 where
  x : ℝ
  y : ℝ
  z : ℝ

/-- `crossProduct` from performCrystallographicAnalysis.js. -/
def crossProduct (v1 v2 : Vec3) : Vec3 :=
  ⟨v1.y * v2.z - v1.z * v2.y,
   v1.z * v2.x - v1.x * v2.z,
   v1.x * v2.y - v1.y * v2.x⟩

/-- `dotProduct` from performCrystallographicAnalysis.js. -/
def dotProduct (v1 v2 : Vec3) : ℝ :=
  v1.x * v2.x + v1.y * v2.y + v1.z * v2.z

/-- `normalizeVector` from performCrystallographicAnalysis.js:
magnitude is `Math.sqrt` of the sum of squares; a zero-magnitude vector maps
to `[0,0,0]`, otherwise each component is divided by the magnitude. -/
def normalizeVector (v : Vec3) : Vec3 :=
  let magnitude := Real.sqrt (v.x * v.x + v.y * v.y + v.z * v.z)
  if magnitude = 0 then ⟨0, 0, 0⟩
  else ⟨v.x / magnitude, v.y / magnitude, v.z / magnitude⟩

/-- A 3×3 matrix as three rows (a JS array of three 3-arrays); also used for
the triple `[a_vec, b_vec, c_vec]` of lattice vectors. -/
@[ext]
structure Mat3 where
  r0 : Vec3
  r1 : Vec3
  r2 : Vec3

/-- Row access, for stating the duality law uniformly. -/
def Mat3.row (m : Mat3) : Fin 3 → Vec3
  | 0 => m.r0
  | 1 => m.r1
  | 2 => m.r2

/-- `matrixInverse3x3` from performCrystallographicAnalysis.js, with rows
`[[a,b,c],[d,e,f],[g,h,i]]`; returns `null` (here `none`) when the
determinant is zero. -/
def matrixInverse3x3 (m : Mat3) : Option Mat3 :=
  let det := m.r0.x * (m.r1.y * m.r2.z - m.r1.z * m.r2.y)
           - m.r0.y * (m.r1.x * m.r2.z - m.r1.z * m.r2.x)
           + m.r0.z * (m.r1.x * m.r2.y - m.r1.y * m.r2.x)
  if det = 0 then none
  else
    let invDet := 1 / det
    some ⟨⟨(m.r1.y * m.r2.z - m.r1.z * m.r2.y) * invDet,
           (m.r0.z * m.r2.y - m.r0.y * m.r2.z) * invDet,
           (m.r0.y * m.r1.z - m.r0.z * m.r1.y) * invDet⟩,
          ⟨(m.r1.z * m.r2.x - m.r1.x * m.r2.z) * invDet,
           (m.r0.x * m.r2.z - m.r0.z * m.r2.x) * invDet,
           (m.r0.z * m.r1.x - m.r0.x * m.r1.z) * invDet⟩,
          ⟨(m.r1.x * m.r2.y - m.r1.y * m.r2.x) * invDet,
           (m.r0.y * m.r2.x - m.r0.x * m.r2.y) * invDet,
           (m.r0.x * m.r1.y - m.r0.y * m.r1.x) * invDet⟩⟩

/-- `multiplyMatrices(m, [[v.x],[v.y],[v.z]])` specialised to the only shape
it is called with in `getMillerIndicesFromCamera` (3×3 times 3×1); the
dimension-mismatch guard of the JS helper cannot fire at this call site. -/
def matVecMul (m : Mat3) (v : Vec3) : Vec3 :=
  ⟨m.r0.x * v.x + m.r0.y * v.y + m.r0.z * v.z,
   m.r1.x * v.x + m.r1.y * v.y + m.r1.z * v.z,
   m.r2.x * v.x + m.r2.y * v.y + m.r2.z * v.z⟩

/-- The six numbers destructured from `parsedData.cellParameters`. -/
structure CellParameters where
  a : ℝ
  b : ℝ
  c : ℝ
  alpha : ℝ
  beta : ℝ
  gamma : ℝ

/-- `getDirectLatticeVectors` from performCrystallographicAnalysis.js.
Note two features of the source, both kept: the divisor of `c_y` is
`Math.sin(gamma)` with `gamma` still in **degrees** (not `gammaRad`), and
`c_z` is `Math.sqrt` of a radicand that is not guarded against being
negative (JS would produce `NaN` there; `Real.sqrt` gives `0`). -/
def getDirectLatticeVectors (cp : CellParameters) : Mat3 :=
  let alphaRad := cp.alpha * Real.pi / 180
  let betaRad := cp.beta * Real.pi / 180
  let gammaRad := cp.gamma * Real.pi / 180
  let a_vec : Vec3 := ⟨cp.a, 0, 0⟩
  let b_vec : Vec3 := ⟨cp.b * Real.cos gammaRad, cp.b * Real.sin gammaRad, 0⟩
  let c_x := cp.c * Real.cos betaRad
  let c_y := cp.c * (Real.cos alphaRad - Real.cos betaRad * Real.cos gammaRad) / Real.sin cp.gamma
  let c_z := Real.sqrt (cp.c * cp.c - c_x * c_x - c_y * c_y)
  ⟨a_vec, b_vec, ⟨c_x, c_y, c_z⟩⟩

/-- The radicand under the square root for the third component of the
c-vector in `getDirectLatticeVectors` (`c*c - c_x*c_x - c_y*c_y`). -/
def directRadicand (cp : CellParameters) : ℝ :=
  let alphaRad := cp.alpha * Real.pi / 180
  let betaRad := cp.beta * Real.pi / 180
  let gammaRad := cp.gamma * Real.pi / 180
  let c_x := cp.c * Real.cos betaRad
  let c_y := cp.c * (Real.cos alphaRad - Real.cos betaRad * Real.cos gammaRad) / Real.sin cp.gamma
  cp.c * cp.c - c_x * c_x - c_y * c_y

/-- The unit-cell volume `vol = dotProduct(a_vec, crossProduct(b_vec, c_vec))`
computed inside `getReciprocalLatticeVectors`. -/
def cellVolume (d : Mat3) : ℝ :=
  dotProduct d.r0 (crossProduct d.r1 d.r2)

/-- `v.map(x => x / vol)`. -/
def vecDiv (v : Vec3) (s : ℝ) : Vec3 :=
  ⟨v.x / s, v.y / s, v.z / s⟩

/-- `getReciprocalLatticeVectors` from performCrystallographicAnalysis.js:
returns `null` (here `none`) when the cell volume is zero. -/
def getReciprocalLatticeVectors (d : Mat3) : Option Mat3 :=
  let bCrossC := crossProduct d.r1 d.r2
  let cCrossA := crossProduct d.r2 d.r0
  let aCrossB := crossProduct d.r0 d.r1
  let vol := dotProduct d.r0 bCrossC
  if vol = 0 then none
  else some ⟨vecDiv bCrossC vol, vecDiv cCrossA vol, vecDiv aCrossB vol⟩

/-- The cubic test cell of the spec: `a = b = c = 5`, all angles `90`. -/
def cubicCell : CellParameters := ⟨5, 5, 5, 90, 90, 90⟩

/-- JS `Math.round`: round half towards `+∞`. -/
def jsRound (x : ℝ) : ℤ := ⌊x + 1 / 2⌋

/-- The integer-reduction tail of `getMillerIndicesFromCamera` (source
lines 473 to 497), applied to the already noise-snapped components: the
all-zero sentinel, scaling by 1000 and rounding, division by the
pairwise-computed GCD (`math.gcd` of two integers in mathjs is the
nonnegative gcd, modelled by `Int.gcd`), and the sign convention making the
first nonzero component positive. -/
def normalizeSnappedHKL (h k l : ℝ) : ℤ × ℤ × ℤ :=
  if h = 0 ∧ k = 0 ∧ l = 0 then (0, 0, 0)
  else
    let v0 := jsRound (h * 1000)
    let v1 := jsRound (k * 1000)
    let v2 := jsRound (l * 1000)
    let commonDivisor : ℤ := (Int.gcd (Int.gcd v0 v1) v2 : ℤ)
    if commonDivisor = 0 then (0, 0, 0)
    else
      let hInt := jsRound (h / ((commonDivisor : ℝ) / 1000))
      let kInt := jsRound (k / ((commonDivisor : ℝ) / 1000))
      let lInt := jsRound (l / ((commonDivisor : ℝ) / 1000))
      if ¬(hInt = 0 ∧ kInt = 0 ∧ lInt = 0) ∧
          (hInt < 0 ∨ (hInt = 0 ∧ kInt < 0) ∨ (hInt = 0 ∧ kInt = 0 ∧ lInt < 0)) then
        (-hInt, -kInt, -lInt)
      else (hInt, kInt, lInt)

/-- `getMillerIndicesFromCamera` from performCrystallographicAnalysis.js.
`cameraEye` is the `{x, y, z}` view direction, the matrix `M` has the
reciprocal vectors as columns, and the `1e-6` tolerance snaps near-zero
components before `normalizeSnappedHKL` reduces to integers.  The
`directLatticeVectorsCartesian` parameter is unused by the source function
and kept for fidelity. -/
def getMillerIndicesFromCamera (cameraEye : Vec3)
    (directLatticeVectorsCartesian reciprocalLatticeVectorsCartesian : Mat3) :
    Option (ℤ × ℤ × ℤ) :=
  let R := reciprocalLatticeVectorsCartesian
  let M : Mat3 := ⟨⟨R.r0.x, R.r1.x, R.r2.x⟩, ⟨R.r0.y, R.r1.y, R.r2.y⟩, ⟨R.r0.z, R.r1.z, R.r2.z⟩⟩
  match matrixInverse3x3 M with
  | none => none
  | some Minv =>
    let hkl := matVecMul Minv cameraEye
    let h := if |hkl.x| < 1 / 1000000 then 0 else hkl.x
    let k := if |hkl.y| < 1 / 1000000 then 0 else hkl.y
    let l := if |hkl.z| < 1 / 1000000 then 0 else hkl.z
    some (normalizeSnappedHKL h k l)

/-- The projection basis built in `performCrystallographicAnalysis`
(lines 574 to 579): seed `dummyVector` is the x-axis unless `|n.x| ≥ 0.9`,
`yVector = normalize(dummyVector × n)`, `xVector = normalize(n × yVector)`. -/
def projectionBasis (n : Vec3) : Vec3 × Vec3 :=
  let dummyVector : Vec3 := if |n.x| < 9 / 10 then ⟨1, 0, 0⟩ else ⟨0, 1, 0⟩
  let yVector := normalizeVector (crossProduct dummyVector n)
  let xVector := normalizeVector (crossProduct n yVector)
  (xVector, yVector)

/-- A geometrically inconsistent cell: `a = b = c = 1`, `α = 60`, `β = 90`,
`γ = 88`.  Because the source divides by `Math.sin(gamma)` with `gamma` in
degrees (`sin 88 ≈ 0.0354` in radians), the computed `c_y ≈ 14.1` exceeds
`c = 1`, so the radicand `c² - c_x² - c_y²` is negative. -/
def badCell : CellParameters := ⟨1, 1, 1, 60, 90, 88⟩

/-- One entry of `parsedData.atomPositions`: fractional coordinates and the
derived element label. -/
structure AtomSite where
  x : ℝ
  y : ℝ
  z : ℝ
  label : String

/-- The accumulated `F_re` of the structure-factor loop:
`Σ cos(2π(h·x + k·y + l·z))` over the atom list. -/
def structureFactorRe (atomPositions : List AtomSite) (h k l : ℤ) : ℝ :=
  (atomPositions.map fun atom =>
    Real.cos (2 * Real.pi * (h * atom.x + k * atom.y + l * atom.z))).sum

/-- The accumulated `F_im` of the structure-factor loop:
`Σ sin(2π(h·x + k·y + l·z))` over the atom list. -/
def structureFactorIm (atomPositions : List AtomSite) (h k l : ℤ) : ℝ :=
  (atomPositions.map fun atom =>
    Real.sin (2 * Real.pi * (h * atom.x + k * atom.y + l * atom.z))).sum

/-- `magnitude = Math.sqrt(F_re ** 2 + F_im ** 2)`. -/
def structureFactorMagnitude (atomPositions : List AtomSite) (h k l : ℤ) : ℝ :=
  Real.sqrt (structureFactorRe atomPositions h k l ^ 2 +
    structureFactorIm atomPositions h k l ^ 2)

/-- `k_max = 1` (Angstrom⁻¹) from the source. -/
def k_max : ℝ := 1

/-- `h_range = Math.ceil(k_max / dotProduct(aStar, aStar) ** 0.5)`;
`x ** 0.5` on the nonnegative `dotProduct(aStar, aStar)` is `Real.sqrt`. -/
def hRange (recip : Mat3) : ℤ := ⌈k_max / Real.sqrt (dotProduct recip.r0 recip.r0)⌉

/-- `k_range`, from `bStar`. -/
def kRange (recip : Mat3) : ℤ := ⌈k_max / Real.sqrt (dotProduct recip.r1 recip.r1)⌉

/-- `l_range`, from `cStar`. -/
def lRange (recip : Mat3) : ℤ := ⌈k_max / Real.sqrt (dotProduct recip.r2 recip.r2)⌉

/-- The identity 3×3 matrix, as a concrete reciprocal triple for witnesses. -/
def idMat3 : Mat3 := ⟨⟨1, 0, 0⟩, ⟨0, 1, 0⟩, ⟨0, 0, 1⟩⟩

/-- The reciprocal-space vector `G_hkl = h·aStar + k·bStar + l·cStar`
(source lines 566 to 570 and 583 to 587). -/
def gVector (recip : Mat3) (h k l : ℝ) : Vec3 :=
  ⟨h * recip.r0.x + k * recip.r1.x + l * recip.r2.x,
   h * recip.r0.y + k * recip.r1.y + l * recip.r2.y,
   h * recip.r0.z + k * recip.r1.z + l * recip.r2.z⟩

/-- The monoclinic test cell of the spec:
`a = 5, b = 6, c = 7, α = 90, β = 100, γ = 90`. -/
def monoCell : CellParameters := ⟨5, 6, 7, 90, 100, 90⟩

/-- `cos β` for the monoclinic cell, `β = 100°`. -/
def cosBeta : ℝ := Real.cos (100 * Real.pi / 180)

/-- `sin β` for the monoclinic cell, as the square root the source
effectively computes (`β ∈ (0°,180°)`, so this equals `sin β`). -/
def sinBeta : ℝ := Real.sqrt (1 - cosBeta ^ 2)

/-- The reciprocal triple of the cubic cell. -/
def cubicRecip : Mat3 := ⟨⟨1/5, 0, 0⟩, ⟨0, 1/5, 0⟩, ⟨0, 0, 1/5⟩⟩

/-- The reciprocal triple of the monoclinic cell. -/
def monoRecip : Mat3 :=
  ⟨⟨1/5, 0, -cosBeta / (5 * sinBeta)⟩, ⟨0, 1/6, 0⟩, ⟨0, 0, 1 / (7 * sinBeta)⟩⟩

/-- The direct lattice triple of the cubic cell (value of
`getDirectLatticeVectors cubicCell`). -/
def cubicDirect : Mat3 := ⟨⟨5, 0, 0⟩, ⟨0, 5, 0⟩, ⟨0, 0, 5⟩⟩

/-- The direct lattice triple of the monoclinic cell (value of
`getDirectLatticeVectors monoCell`). -/
def monoDirect : Mat3 := ⟨⟨5, 0, 0⟩, ⟨0, 6, 0⟩, ⟨7 * cosBeta, 0, 7 * sinBeta⟩⟩

/-- Whitespace test used to model the JS `\\s` character class and `trim`. -/
def wsChar (c : Char) : Bool := c.isWhitespace

/-- Prefix test on character lists (JS `String.prototype.startsWith`). -/
def isPre : List Char → List Char → Bool
  | [], _ => true
  | _ :: _, [] => false
  | a :: as, b :: bs => a == b && isPre as bs

/-- Suffix test on character lists (JS `String.prototype.endsWith`). -/
def isSuf (s l : List Char) : Bool := isPre s.reverse l.reverse

/-- JS `String.prototype.trim`. -/
def trimChars (l : List Char) : List Char :=
  ((l.dropWhile wsChar).reverse.dropWhile wsChar).reverse

/-- Split a character list at every separator character satisfying `p`
(JS `String.prototype.split` with a single-character or character-class
separator); like JS, adjacent separators yield empty segments. -/
def splitOnP (p : Char → Bool) : List Char → List (List Char)
  | [] => [[]]
  | c :: cs =>
    let r := splitOnP p cs
    if p c then [] :: r
    else
      match r with
      | [] => [[c]]
      | h :: t => (c :: h) :: t

/-- JS `line.split(/\\s+/).filter(Boolean)`. -/
def fieldsWs (l : List Char) : List (List Char) := (splitOnP wsChar l).filter (fun t => !t.isEmpty)

/-- JS `Array.prototype.indexOf` on a list of strings (`none` for -1). -/
def idxOf? (s : List Char) : List (List Char) → Option ℕ
  | [] => none
  | x :: xs => if x == s then some 0 else (idxOf? s xs).map (fun n => n + 1)

/-- JS `String.prototype.toLowerCase` (ASCII). -/
def lowerChars (l : List Char) : List Char := l.map Char.toLower

/-- The single-quote character. -/
def squote : Char := Char.ofNat 39

/-- The double-quote character. -/
def dquote : Char := Char.ofNat 34

/-- Split a character list at the first occurrence of `q`, dropping it;
`none` when `q` does not occur. -/
def splitAtChar? (q : Char) : List Char → Option (List Char × List Char)
  | [] => none
  | c :: cs =>
    if c == q then some ([], cs)
    else (splitAtChar? q cs).map (fun ab => (c :: ab.1, ab.2))

/-- The quote-aware tokenizer of the symmetry-operation parser: the JS
regex scan with pattern single-quoted string | double-quoted string |
maximal non-whitespace run, applied repeatedly (`regex.exec` loop with
alternation preferring a closed quoted token at each position). Tokens
keep their surrounding quotes, as `match[0]` does. -/
def tokenize (cs : List Char) : List (List Char) :=
  match h : cs.dropWhile wsChar with
  | [] => []
  | c :: rest =>
    if c == squote || c == dquote then
      match hs : splitAtChar? c rest with
      | some (content, rest2) => (c :: content ++ [c]) :: tokenize rest2
      | none =>
        (c :: rest.takeWhile (fun d => !wsChar d)) :: tokenize (rest.dropWhile (fun d => !wsChar d))
    else
      (c :: rest.takeWhile (fun d => !wsChar d)) :: tokenize (rest.dropWhile (fun d => !wsChar d))
termination_by cs.length
decreasing_by
  · have key : ∀ (l a b : List Char), splitAtChar? c l = some (a, b) → b.length < l.length := by
      intro l
      induction l with
      | nil => intro a b hh; simp [splitAtChar?] at hh
      | cons d ds ih =>
        intro a b hh
        simp only [splitAtChar?] at hh
        split at hh
        · cases hh
          simp
        · simp only [Option.map_eq_some'] at hh
          obtain ⟨⟨a1, b1⟩, hsp, heq⟩ := hh
          cases heq
          exact Nat.lt_succ_of_lt (ih a1 b1 hsp)
    have h1 : (cs.dropWhile wsChar).length ≤ cs.length := (List.dropWhile_sublist wsChar).length_le
    rw [h] at h1
    have h2 := key rest content rest2 hs
    simp at h1
    omega
  · have h1 : (cs.dropWhile wsChar).length ≤ cs.length := (List.dropWhile_sublist wsChar).length_le
    rw [h] at h1
    have h2 : (rest.dropWhile (fun d => !wsChar d)).length ≤ rest.length :=
      (List.dropWhile_sublist (fun d => !wsChar d)).length_le
    simp at h1
    omega
  · have h1 : (cs.dropWhile wsChar).length ≤ cs.length := (List.dropWhile_sublist wsChar).length_le
    rw [h] at h1
    have h2 : (rest.dropWhile (fun d => !wsChar d)).length ≤ rest.length :=
      (List.dropWhile_sublist (fun d => !wsChar d)).length_le
    simp at h1
    omega

/-- The symmetry tag names searched for, in priority order. -/
def SYMMETRY_TAGS : List (List Char) :=
  [("_space_group_symop_operation_xyz").data,
   ("_symmetry_equiv_pos_as_xyz").data,
   ("_symmetry_equiv_pos_xyz").data]

/-- Locate the symmetry loop: the first line equal (case-insensitively)
to `loop_` whose following run of tag lines (lines starting with `_`)
contains one of `SYMMETRY_TAGS`; returns that tag's index among the tag
lines together with the lines after the `loop_` line. -/
def findSymLoop : List (List Char) → Option (ℕ × List (List Char))
  | [] => none
  | line :: rest =>
    if lowerChars line == ("loop_").data then
      let tags := rest.takeWhile (fun s => isPre (("_").data) s)
      match SYMMETRY_TAGS.findSome? (fun tag => idxOf? tag tags) with
      | some ti => some (ti, rest)
      | none => findSymLoop rest
    else findSymLoop rest

/-- Collect the symmetry data lines after the symmetry `loop_` line:
tag lines are skipped, and the scan stops at a nested `loop_`, a comment
or an empty line. -/
def collectSymData : List (List Char) → List (List Char)
  | [] => []
  | line :: rest =>
    if isPre (("_").data) line then collectSymData rest
    else if isPre (("loop_").data) (lowerChars line) || isPre (("#").data) line ||
        (trimChars line).isEmpty then []
    else line :: collectSymData rest

/-- JS `op.substring(1, op.length - 1)` as applied to a quoted token:
`substring` swaps its arguments when `start > end`, so a length-one
token is returned unchanged. -/
def jsSubstring1 (op : List Char) : List Char :=
  if op.length ≤ 1 then op else (op.drop 1).dropLast

/-- Extract the symmetry operation from one data line: tokenize, pick the
token at the symmetry tag's column, trim it, strip a matching pair of
surrounding quotes, and drop the result when empty. -/
def symOpFromLine (tagIdx : ℕ) (line : List Char) : Option (List Char) :=
  let parts := tokenize line
  match parts[tagIdx]? with
  | none => none
  | some p =>
    let op := trimChars p
    let op2 :=
      if (isPre [squote] op && isSuf [squote] op) || (isPre [dquote] op && isSuf [dquote] op)
      then jsSubstring1 op else op
    if op2.isEmpty then none else some op2

/-- The raw parsed symmetry-operation strings (before the `x,y,z`
default is applied). -/
def parseSymOpsRaw (cifLines : List (List Char)) : List (List Char) :=
  match findSymLoop cifLines with
  | none => []
  | some (ti, rest) => (collectSymData rest).filterMap (symOpFromLine ti)

/-- The default identity symmetry operation. -/
def xyzOp : List Char := ("x,y,z").data

/-- Locate the atom-site loop: the first `loop_` line followed within the
next nine lines by a line starting with `_atom_site_`; returns the suffix
of the line list from that `loop_` line. -/
def findAtomSiteBlock : List (List Char) → Option (List (List Char))
  | [] => none
  | line :: rest =>
    if line == ("loop_").data && (rest.take 9).any (fun s => isPre (("_atom_site_").data) s)
    then some (line :: rest)
    else findAtomSiteBlock rest

/-- Collect the `_atom_site_` column labels (tag minus its prefix,
trimmed) and find the first data line after them; `none` when the block
ends before any data line. -/
def collectLabels : List (List Char) → List (List Char) → Option (List (List Char) × List (List Char))
  | _, [] => none
  | labels, line :: rest =>
    if isPre (("_atom_site_").data) line then
      collectLabels (labels ++ [trimChars (line.drop 11)]) rest
    else if !labels.isEmpty && !(isPre (("#").data) line) && !(isPre (("loop_").data) line) then
      some (labels, line :: rest)
    else collectLabels labels rest

/-- The atom-data line filter: not a comment, tag or `loop_` line, and
not blank. -/
def isDataRow (line : List Char) : Bool :=
  !(isPre (("#").data) line) && !(isPre (("_").data) line) &&
  !(isPre (("loop_").data) line) && !(trimChars line).isEmpty

/-- JS `s.split('(')[0]`: the part before the first opening parenthesis. -/
def beforeParen (s : List Char) : List Char := s.takeWhile (fun c => !(c == Char.ofNat 40))

/-- JS truncation toward zero, as performed by the `%` operator. -/
def jsTrunc (x : ℝ) : ℤ := if 0 ≤ x then ⌊x⌋ else ⌈x⌉

/-- JS `x % 1` (truncated remainder by one). -/
def jsModOne (x : ℝ) : ℝ := x - jsTrunc x

/-- The coordinate wrap `(v % 1 + 1) % 1` applied to every emitted
fractional coordinate. -/
def wrap (x : ℝ) : ℝ := jsModOne (jsModOne x + 1)

/-- Process one atom data line: split it into whitespace-separated
fields, check it reaches every coordinate column, read the label, parse
the three coordinates (JS `Number`, modelled by the `jsNumber` parameter,
`none` for NaN, which skips the line), and emit one wrapped position per
symmetry operation whose three comma-separated expressions all evaluate
(JS `math.evaluate`, modelled by the `evalOp` parameter; a failure skips
that operation). The element-extraction regex and its chemical-formula
fallback are modelled by the `elementType` parameter. -/
def processAtomLine (evalOp : List Char → ℝ × ℝ × ℝ → Option ℝ)
    (jsNumber : List Char → Option ℝ) (elementType : List Char → String)
    (symOps : List (List Char)) (xIdx yIdx zIdx : ℕ) (labelIdx : Option ℕ)
    (line : List Char) : List AtomSite :=
  let parts := fieldsWs line
  if max xIdx (max yIdx zIdx) < parts.length then
    let currentAtomLabel :=
      match labelIdx.bind (fun li => parts[li]?) with
      | some p => p
      | none =>
        match parts[0]? with
        | some p => p
        | none => ("Unknown").data
    match jsNumber (beforeParen (parts.getD xIdx [])),
        jsNumber (beforeParen (parts.getD yIdx [])),
        jsNumber (beforeParen (parts.getD zIdx [])) with
    | some x0, some y0, some z0 =>
      symOps.filterMap (fun opString =>
        let ops := (splitOnP (fun c => c == ',') opString).map trimChars
        match ops[0]?, ops[1]?, ops[2]? with
        | some o0, some o1, some o2 =>
          match evalOp o0 (x0, y0, z0), evalOp o1 (x0, y0, z0), evalOp o2 (x0, y0, z0) with
          | some xn, some yn, some zn =>
            some ⟨wrap xn, wrap yn, wrap zn, elementType currentAtomLabel⟩
          | _, _, _ => none
        | _, _, _ => none)
    | _, _, _ => []
  else []

/-- The input file split into trimmed lines. -/
def cifLinesOf (cifText : List Char) : List (List Char) :=
  (splitOnP (fun c => c == Char.ofNat 10) cifText).map trimChars

/-- The result record of `parseCifInfo`. The regex-scraped header fields
(space group name and number, chemical formula, cell parameters) are
omitted: they never affect success or failure and are not used by the
claims over the parser. -/
structure ParsedCif where
  atomPositions : List AtomSite
  symmetryOperations : List (List Char)

/-- The CIF parser `parseCifInfo`: split into trimmed lines, parse the
symmetry operations (defaulting to `x,y,z` when none are found), locate
the atom-site loop (`none` when absent), collect its column labels and
find the data start (`none` when absent), require the three fractional
coordinate columns (`none` when missing), filter the data rows (`none`
when none remain), and emit the wrapped symmetry-expanded positions. -/
def parseCifInfo (evalOp : List Char → ℝ × ℝ × ℝ → Option ℝ)
    (jsNumber : List Char → Option ℝ) (elementType : List Char → String)
    (cifText : List Char) : Option ParsedCif :=
  let lines := cifLinesOf cifText
  let symRaw := parseSymOpsRaw lines
  let symmetryOperations := if symRaw.isEmpty then [xyzOp] else symRaw
  match findAtomSiteBlock lines with
  | none => none
  | some block =>
    match collectLabels [] block with
    | none => none
    | some (labels, restLines) =>
      match idxOf? (("fract_x").data) labels, idxOf? (("fract_y").data) labels,
          idxOf? (("fract_z").data) labels with
      | some xIdx, some yIdx, some zIdx =>
        let labelIdx := idxOf? (("label").data) labels
        let atomDataLines := restLines.filter isDataRow
        if atomDataLines.isEmpty then none
        else some ⟨atomDataLines.flatMap
          (processAtomLine evalOp jsNumber elementType symmetryOperations xIdx yIdx zIdx labelIdx),
          symmetryOperations⟩
      | _, _, _ => none

/-- A concrete evaluation operator for witnesses: every expression
evaluates to 3/2. -/
def evalOpW : List Char → ℝ × ℝ × ℝ → Option ℝ := fun _ _ => some (3/2)

/-- A concrete number parser for witnesses: every field reads as 4/5. -/
def jsNumberW0 : List Char → Option ℝ := fun _ => some (4/5)

/-- A concrete element-extraction function for witnesses. -/
def elementTypeW : List Char → String := fun _ => "A"

/-- A concrete minimal CIF file for witnesses: an atom-site loop with a
label column, the three fractional-coordinate columns and one data row,
and no symmetry loop. -/
def cifTextW : List Char :=
  ("loop_\n_atom_site_label\n_atom_site_fract_x\n_atom_site_fract_y\n_atom_site_fract_z\nA 0.8 0.8 0.8").data

/-- The parse result of `cifTextW` under the witness parameters. -/
def parsedW : ParsedCif :=
  ⟨[⟨wrap (3/2), wrap (3/2), wrap (3/2), "A"⟩], [xyzOp]⟩

/-- The located atom-site header labels together with the filtered data
rows: `none` when the atom-site loop or the start of its data lines
cannot be located (in which case no data rows exist at all). -/
def atomHeaderAndRows (lines : List (List Char)) :
    Option (List (List Char) × List (List Char)) :=
  match findAtomSiteBlock lines with
  | none => none
  | some block =>
    match collectLabels [] block with
    | none => none
    | some (labels, restLines) => some (labels, restLines.filter isDataRow)

/-- Little-endian base-10 digits with explicit fuel (the fuel `n` always
suffices since `n / 10 < n`). -/
def natDigitsAux : ℕ → ℕ → List ℕ
  | 0, _ => []
  | fuel + 1, n => if n = 0 then [] else n % 10 :: natDigitsAux fuel (n / 10)

/-- Little-endian base-10 digits of a natural number (empty for zero). -/
def natDigits (n : ℕ) : List ℕ := natDigitsAux n n

/-- Recompose a little-endian digit list. -/
def unDigits : List ℕ → ℕ
  | [] => 0
  | d :: ds => d + 10 * unDigits ds

/-- The decimal digit character of `d` (ASCII 48 + d). -/
def digitChar (d : ℕ) : Char := Char.ofNat (48 + d)

/-- JS decimal rendering of a natural number (`${n}` / `String(n)`). -/
def natStr (n : ℕ) : List Char :=
  if n = 0 then [digitChar 0] else ((natDigits n).map digitChar).reverse

/-- JS decimal rendering of an integer, with a leading minus sign for
negative values. -/
def intStr (i : ℤ) : List Char :=
  if i < 0 then Char.ofNat 45 :: natStr i.natAbs else natStr i.natAbs

/-- The key string written into the structure-factor object and the spot
labels: the JS template `h,k,l` (equivalently `[h,k,l].join(',')`). -/
def keyOf (t : ℤ × ℤ × ℤ) : List Char :=
  intStr t.1 ++ (',' :: (intStr t.2.1 ++ (',' :: intStr t.2.2)))

/-- One emitted diffraction spot. -/
structure DiffPoint where
  x : ℝ
  y : ℝ
  label : List Char
  markerSize : ℝ

/-- The data handed to the two plots by `performCrystallographicAnalysis`
(the Plotly/CanvasJS calls themselves are the UI boundary); the
reciprocal matrix and projection basis are included as the analysis
computes them. -/
structure AnalysisOutput where
  listofPlanes : List (ℤ × ℤ × ℤ)
  structureFactors : List (List Char × ℝ)
  structureFactorMagnitudes : List ℝ
  projectedCoords : List (ℝ × ℝ × ℝ)
  diffractionDataPoints : List DiffPoint
  zoneAxis : ℝ × ℝ × ℝ
  zoneAxisStr : List Char
  structureTitle : List Char
  diffractionTitle : List Char
  recip : Mat3
  xVector : Vec3
  yVector : Vec3
  normalPlaneVector : Vec3

/-- The integers from `-r` to `r` in order (one `for` loop dimension). -/
def intRangeList (r : ℤ) : List ℤ := (List.range (2 * r + 1).toNat).map (fun i => -r + i)

/-- The triple loop over `h`, `k`, `l` in row-major order. -/
def allTriples (hr kr lr : ℤ) : List (ℤ × ℤ × ℤ) :=
  (intRangeList hr).flatMap (fun h =>
    (intRangeList kr).flatMap (fun k =>
      (intRangeList lr).map (fun l => (h, k, l))))

/-- JS `Math.max(...mags)` over the collected magnitudes; the empty case
yields `-Infinity` in JS, modelled as 0 here — in that case the plane
list is empty too, so no data point is ever built from it. -/
def maxMagnitude : List ℝ → ℝ
  | [] => 0
  | a :: rest => rest.foldl max a

/-- The marker-size denominator `Math.max(...mags) || 1`. -/
def magDenom (mags : List ℝ) : ℝ := if maxMagnitude mags = 0 then 1 else maxMagnitude mags

/-- JS `zoneAxisStr.split(',').map(Number)` (`none` for NaN). -/
def zoneNums (jsNum : List Char → Option ℝ) (zs : List Char) : List (Option ℝ) :=
  (splitOnP (fun c => c == ',') zs).map jsNum

/-- The rejection condition on the parsed zone axis: not exactly three
fields, or some field is NaN, or every field parses to zero. -/
def zoneInvalid (jsNum : List Char → Option ℝ) (zs : List Char) : Prop :=
  (zoneNums jsNum zs).length ≠ 3 ∨ none ∈ zoneNums jsNum zs ∨
    ∀ v ∈ zoneNums jsNum zs, v = some 0

instance zoneInvalidDecidable (jsNum : List Char → Option ℝ) (zs : List Char) :
    Decidable (zoneInvalid jsNum zs) := by
  unfold zoneInvalid
  infer_instance

/-- The default zone-axis string substituted on rejection. -/
def defaultZoneStr : List Char := ("1,0,0").data

/-- Parse the zone-axis string, substituting the default axis (1,0,0)
and the default string on rejection. -/
def zoneParse (jsNum : List Char → Option ℝ) (zs : List Char) : (ℝ × ℝ × ℝ) × List Char :=
  let nums := zoneNums jsNum zs
  if zoneInvalid jsNum zs then ((1, 0, 0), defaultZoneStr)
  else (((nums.getD 0 none).getD 0, (nums.getD 1 none).getD 0, (nums.getD 2 none).getD 0), zs)

/-- The title prefix of both plots. -/
def titlePrefix : List Char := ("Zone axis: ").data

/-- The model of `performCrystallographicAnalysis`: the two `showMessage`
early returns become `none`; otherwise the direct and reciprocal
lattices, the symmetric index box, the per-plane structure-factor
magnitudes (stored both in the string-keyed object and in the parallel
array), the zone-axis parse with its (1,0,0) default, the projection
basis, the projected coordinates and the filtered diffraction spots are
computed and returned. JS `Number` is modelled by the `jsNum`
parameter, and falsy cell lengths by zero. -/
def performCrystallographicAnalysis (jsNum : List Char → Option ℝ)
    (cellParameters : CellParameters) (atomPositions : List AtomSite)
    (zoneAxisStr : List Char) : Option AnalysisOutput :=
  if atomPositions.length = 0 ∨ cellParameters.a = 0 ∨ cellParameters.b = 0 ∨
      cellParameters.c = 0 then none
  else
    match getReciprocalLatticeVectors (getDirectLatticeVectors cellParameters) with
    | none => none
    | some recip =>
      let listofPlanes := allTriples (hRange recip) (kRange recip) (lRange recip)
      let structureFactors := listofPlanes.map (fun t =>
        (keyOf t, structureFactorMagnitude atomPositions t.1 t.2.1 t.2.2))
      let structureFactorMagnitudes := listofPlanes.map (fun t =>
        structureFactorMagnitude atomPositions t.1 t.2.1 t.2.2)
      let zp := zoneParse jsNum zoneAxisStr
      let zoneAxis := zp.1
      let zoneStr := zp.2
      let normalPlaneVector := normalizeVector (gVector recip zoneAxis.1 zoneAxis.2.1 zoneAxis.2.2)
      let dummyVector : Vec3 := if |normalPlaneVector.x| < 9/10 then ⟨1, 0, 0⟩ else ⟨0, 1, 0⟩
      let yVector := normalizeVector (crossProduct dummyVector normalPlaneVector)
      let xVector := normalizeVector (crossProduct normalPlaneVector yVector)
      let projectedCoords := listofPlanes.map (fun t =>
        (dotProduct (gVector recip t.1 t.2.1 t.2.2) xVector,
         dotProduct (gVector recip t.1 t.2.1 t.2.2) yVector,
         dotProduct (gVector recip t.1 t.2.1 t.2.2) normalPlaneVector))
      let diffractionDataPoints := listofPlanes.filterMap (fun t =>
        if structureFactorMagnitude atomPositions t.1 t.2.1 t.2.2 > 1/1000 ∨
            (t.1 = 0 ∧ t.2.1 = 0 ∧ t.2.2 = 0 ∧
              structureFactorMagnitude atomPositions t.1 t.2.1 t.2.2 > 0) then
          some ⟨dotProduct (gVector recip t.1 t.2.1 t.2.2) xVector,
                dotProduct (gVector recip t.1 t.2.1 t.2.2) yVector,
                keyOf t,
                structureFactorMagnitude atomPositions t.1 t.2.1 t.2.2 /
                  magDenom structureFactorMagnitudes * 10 + 5⟩
        else none)
      some ⟨listofPlanes, structureFactors, structureFactorMagnitudes, projectedCoords,
            diffractionDataPoints, zoneAxis, zoneStr, titlePrefix ++ zoneStr,
            titlePrefix ++ zoneStr, recip, xVector, yVector, normalPlaneVector⟩

/-- Lookup in the JS object model: the value of the last assignment to
the key. -/
def objGet (m : List (List Char × ℝ)) (s : List Char) : Option ℝ := m.reverse.lookup s

/-- The unit cubic cell used by the analysis witnesses. -/
def unitCell : CellParameters := ⟨1, 1, 1, 90, 90, 90⟩

/-- A single atom at the origin, used by the analysis witnesses. -/
def atom0 : AtomSite := ⟨0, 0, 0, "A"⟩

/-- The output of an analysis run on `unitCell` with the single origin
atom, as a function of the zone parse result; the projection basis for a
normal along the x-axis is y = (0,0,-1), x = (0,1,0). -/
def outUnit (za : ℝ × ℝ × ℝ) (zstr : List Char) : AnalysisOutput :=
  ⟨allTriples 1 1 1,
   (allTriples 1 1 1).map (fun t => (keyOf t, structureFactorMagnitude [atom0] t.1 t.2.1 t.2.2)),
   (allTriples 1 1 1).map (fun t => structureFactorMagnitude [atom0] t.1 t.2.1 t.2.2),
   (allTriples 1 1 1).map (fun t =>
     (dotProduct (gVector idMat3 t.1 t.2.1 t.2.2) ⟨0, 1, 0⟩,
      dotProduct (gVector idMat3 t.1 t.2.1 t.2.2) ⟨0, 0, -1⟩,
      dotProduct (gVector idMat3 t.1 t.2.1 t.2.2) ⟨1, 0, 0⟩)),
   (allTriples 1 1 1).filterMap (fun t =>
     if structureFactorMagnitude [atom0] t.1 t.2.1 t.2.2 > 1/1000 ∨
         (t.1 = 0 ∧ t.2.1 = 0 ∧ t.2.2 = 0 ∧
           structureFactorMagnitude [atom0] t.1 t.2.1 t.2.2 > 0) then
       some ⟨dotProduct (gVector idMat3 t.1 t.2.1 t.2.2) ⟨0, 1, 0⟩,
             dotProduct (gVector idMat3 t.1 t.2.1 t.2.2) ⟨0, 0, -1⟩,
             keyOf t,
             structureFactorMagnitude [atom0] t.1 t.2.1 t.2.2 /
               magDenom ((allTriples 1 1 1).map (fun t =>
                 structureFactorMagnitude [atom0] t.1 t.2.1 t.2.2)) * 10 + 5⟩
     else none),
   za, zstr, titlePrefix ++ zstr, titlePrefix ++ zstr,
   idMat3, ⟨0, 1, 0⟩, ⟨0, 0, -1⟩, ⟨1, 0, 0⟩⟩

/-- A concrete JS `Number` model for the analysis witnesses. -/
def jsNumW : List Char → Option ℝ := fun s =>
  if s == ("1").data then some 1
  else if s == ("0").data then some 0
  else if s == ("1.5").data then some (3/2)
  else none

/-- A zone string with no numeric fields. -/
def abcStr : List Char := ("abc").data

/-- A zone string of three numeric fields whose first is not an integer. -/
def zstr15 : List Char := ("1.5,0,0").data

/-- Duality for an arbitrary direct triple with nonzero volume: the
reciprocal vectors built by `getReciprocalLatticeVectors` pair to the
Kronecker delta with the direct vectors. -/
theorem reciprocal_duality_of_volume_ne_zero (d : Mat3) (h : cellVolume d ≠ 0) :
    ∃ r : Mat3, getReciprocalLatticeVectors d = some r ∧
      ∀ i j : Fin 3, dotProduct (d.row i) (r.row j) = if i = j then 1 else 0 := by
  have hv : dotProduct d.r0 (crossProduct d.r1 d.r2) ≠ 0 := h
  refine ⟨⟨vecDiv (crossProduct d.r1 d.r2) (dotProduct d.r0 (crossProduct d.r1 d.r2)),
          vecDiv (crossProduct d.r2 d.r0) (dotProduct d.r0 (crossProduct d.r1 d.r2)),
          vecDiv (crossProduct d.r0 d.r1) (dotProduct d.r0 (crossProduct d.r1 d.r2))⟩,
        ?_, ?_⟩
  · simp only [getReciprocalLatticeVectors, if_neg hv]
  intro i j
  fin_cases i <;> fin_cases j <;>
    simp only [Mat3.row, Fin.isValue, dotProduct, crossProduct, vecDiv,
      cellVolume] at hv ⊢ <;>
    norm_num [Fin.ext_iff] <;>
    field_simp <;>
    ring

/-- **C2**: for every `CellParameters` with positive lengths, angles in
`(0,180)` and positive cell volume, the direct vectors of
`getDirectLatticeVectors` and the reciprocal vectors of
`getReciprocalLatticeVectors` satisfy `a_i · aStar_j = 1` when `i = j`
and `0` otherwise (exactly, in the real-number model). -/
theorem C2_reciprocal_duality (cp : CellParameters)
    (ha : 0 < cp.a) (hb : 0 < cp.b) (hc : 0 < cp.c)
    (hal : 0 < cp.alpha) (hal' : cp.alpha < 180)
    (hbe : 0 < cp.beta) (hbe' : cp.beta < 180)
    (hga : 0 < cp.gamma) (hga' : cp.gamma < 180)
    (hvol : 0 < cellVolume (getDirectLatticeVectors cp)) :
    ∃ r : Mat3,
      getReciprocalLatticeVectors (getDirectLatticeVectors cp) = some r ∧
      ∀ i j : Fin 3,
        dotProduct ((getDirectLatticeVectors cp).row i) (r.row j) =
          if i = j then 1 else 0 :=
  reciprocal_duality_of_volume_ne_zero _ (ne_of_gt hvol)

theorem deg90_to_rad : (90 : ℝ) * Real.pi / 180 = Real.pi / 2 := by ring

theorem directLattice_cubic :
    getDirectLatticeVectors cubicCell = ⟨⟨5, 0, 0⟩, ⟨0, 5, 0⟩, ⟨0, 0, 5⟩⟩ := by
  simp only [getDirectLatticeVectors, cubicCell, deg90_to_rad, Real.cos_pi_div_two,
    Real.sin_pi_div_two, Mat3.mk.injEq, Vec3.mk.injEq]
  norm_num
  rw [show (25 : ℝ) = 5 ^ 2 by norm_num, Real.sqrt_sq (by norm_num : (0:ℝ) ≤ 5)]

theorem cellVolume_cubic : cellVolume (getDirectLatticeVectors cubicCell) = 125 := by
  rw [directLattice_cubic]
  norm_num [cellVolume, dotProduct, crossProduct]

/-- Witness for C2 at the cubic cell: the hypotheses hold and the duality
relations follow. -/
theorem C2_reciprocal_duality_witness :
    0 < cellVolume (getDirectLatticeVectors cubicCell) ∧
    ∃ r : Mat3,
      getReciprocalLatticeVectors (getDirectLatticeVectors cubicCell) = some r ∧
      ∀ i j : Fin 3,
        dotProduct ((getDirectLatticeVectors cubicCell).row i) (r.row j) =
          if i = j then 1 else 0 := by
  have hvol : 0 < cellVolume (getDirectLatticeVectors cubicCell) := by
    rw [cellVolume_cubic]; norm_num
  exact ⟨hvol, C2_reciprocal_duality cubicCell (by norm_num [cubicCell]) (by norm_num [cubicCell])
    (by norm_num [cubicCell]) (by norm_num [cubicCell]) (by norm_num [cubicCell])
    (by norm_num [cubicCell]) (by norm_num [cubicCell]) (by norm_num [cubicCell])
    (by norm_num [cubicCell]) hvol⟩

theorem normalizeVector_eq_of_sq (v : Vec3) (m : ℝ) (hm : 0 < m)
    (h : v.x * v.x + v.y * v.y + v.z * v.z = m ^ 2) :
    normalizeVector v = ⟨v.x / m, v.y / m, v.z / m⟩ := by
  unfold normalizeVector
  rw [h, Real.sqrt_sq hm.le, if_neg hm.ne']

/-- Orthonormality and orientation of the two-step Gram–Schmidt basis, for
any unit normal `n` and any seed `d` whose cross product with `n` is
nonzero: both basis vectors are unit, mutually orthogonal and orthogonal to
`n`, and `xVector × yVector = -n` (so `{xVector, yVector, n}` is
left-handed). -/
theorem basis_of_seed (n d : Vec3) (hn : dotProduct n n = 1)
    (hc : crossProduct d n ≠ ⟨0, 0, 0⟩) :
    ∀ yVector xVector : Vec3,
      yVector = normalizeVector (crossProduct d n) →
      xVector = normalizeVector (crossProduct n yVector) →
      dotProduct xVector xVector = 1 ∧ dotProduct yVector yVector = 1 ∧
      dotProduct xVector yVector = 0 ∧ dotProduct xVector n = 0 ∧
      dotProduct yVector n = 0 ∧
      crossProduct xVector yVector = ⟨-n.x, -n.y, -n.z⟩ := by
  intro yVector xVector hy hx
  set c := crossProduct d n with hcdef
  have hsum_pos : 0 < c.x * c.x + c.y * c.y + c.z * c.z := by
    by_contra hle
    push_neg at hle
    have h0 : c.x * c.x + c.y * c.y + c.z * c.z = 0 :=
      le_antisymm hle
        (by nlinarith [mul_self_nonneg c.x, mul_self_nonneg c.y, mul_self_nonneg c.z])
    have hx0 : c.x = 0 := by
      nlinarith [mul_self_nonneg c.x, mul_self_nonneg c.y, mul_self_nonneg c.z]
    have hy0 : c.y = 0 := by
      nlinarith [mul_self_nonneg c.x, mul_self_nonneg c.y, mul_self_nonneg c.z]
    have hz0 : c.z = 0 := by
      nlinarith [mul_self_nonneg c.x, mul_self_nonneg c.y, mul_self_nonneg c.z]
    exact hc (Vec3.ext hx0 hy0 hz0)
  set m := Real.sqrt (c.x * c.x + c.y * c.y + c.z * c.z) with hmdef
  have hm_pos : 0 < m := Real.sqrt_pos.mpr hsum_pos
  have hm_sq : m ^ 2 = c.x * c.x + c.y * c.y + c.z * c.z := by
    rw [hmdef]
    exact Real.sq_sqrt hsum_pos.le
  have hyv : yVector = ⟨c.x / m, c.y / m, c.z / m⟩ := by
    rw [hy, normalizeVector_eq_of_sq c m hm_pos hm_sq.symm]
  -- `n · c = 0` because `c = d × n`
  have hnc : n.x * c.x + n.y * c.y + n.z * c.z = 0 := by
    rw [hcdef]; simp only [crossProduct]; ring
  have hn' : n.x * n.x + n.y * n.y + n.z * n.z = 1 := hn
  -- the unnormalized x vector and its unit length
  have hw : crossProduct n yVector =
      ⟨(n.y * c.z - n.z * c.y) / m, (n.z * c.x - n.x * c.z) / m,
       (n.x * c.y - n.y * c.x) / m⟩ := by
    rw [hyv]
    simp only [crossProduct, Vec3.mk.injEq]
    refine ⟨by ring, by ring, by ring⟩
  have hw_sq : ((n.y * c.z - n.z * c.y) / m) * ((n.y * c.z - n.z * c.y) / m) +
      ((n.z * c.x - n.x * c.z) / m) * ((n.z * c.x - n.x * c.z) / m) +
      ((n.x * c.y - n.y * c.x) / m) * ((n.x * c.y - n.y * c.x) / m) = 1 ^ 2 := by
    have key : (n.y * c.z - n.z * c.y) * (n.y * c.z - n.z * c.y) +
        (n.z * c.x - n.x * c.z) * (n.z * c.x - n.x * c.z) +
        (n.x * c.y - n.y * c.x) * (n.x * c.y - n.y * c.x) =
        (n.x * n.x + n.y * n.y + n.z * n.z) * (c.x * c.x + c.y * c.y + c.z * c.z) -
        (n.x * c.x + n.y * c.y + n.z * c.z) ^ 2 := by ring
    field_simp
    rw [key, hn', hnc]
    linear_combination (-1 : ℝ) * hm_sq
  have hxv : xVector = ⟨(n.y * c.z - n.z * c.y) / m, (n.z * c.x - n.x * c.z) / m,
      (n.x * c.y - n.y * c.x) / m⟩ := by
    rw [hx, hw, normalizeVector_eq_of_sq _ 1 one_pos hw_sq]
    simp only [div_one]
  have hm_ne : m ≠ 0 := hm_pos.ne'
  refine ⟨?_, ?_, ?_, ?_, ?_, ?_⟩
  · rw [hxv]
    simp only [dotProduct]
    exact hw_sq.trans (by norm_num)
  · rw [hyv]
    simp only [dotProduct]
    field_simp
    rw [← hm_sq]; ring
  · rw [hxv, hyv]
    simp only [dotProduct]
    field_simp
    ring
  · rw [hxv]
    simp only [dotProduct]
    field_simp
    ring
  · rw [hyv]
    simp only [dotProduct]
    field_simp
    rw [show c.x * n.x + c.y * n.y + c.z * n.z =
      n.x * c.x + n.y * c.y + n.z * c.z by ring, hnc]
  · rw [hxv, hyv]
    simp only [crossProduct, Vec3.mk.injEq]
    refine ⟨?_, ?_, ?_⟩
    · field_simp
      linear_combination c.x * hnc + n.x * hm_sq
    · field_simp
      linear_combination c.y * hnc + n.y * hm_sq
    · field_simp
      linear_combination c.z * hnc + n.z * hm_sq

/-- **C9** (amended): for every unit normal `n`, the basis produced by the
seed rule (`x`-axis if `|n.x| < 0.9`, else `y`-axis), with
`yVector = normalize(seed × n)` and `xVector = normalize(n × yVector)`, is
orthonormal and orthogonal to `n`; but the frame `{xVector, yVector, n}` is
**left-handed**: `xVector × yVector = -n` (not `n` as the claim and the
source comment state). -/
theorem C9_projection_basis_orthonormal_left_handed (n : Vec3)
    (hn : dotProduct n n = 1) :
    dotProduct (projectionBasis n).1 (projectionBasis n).1 = 1 ∧
    dotProduct (projectionBasis n).2 (projectionBasis n).2 = 1 ∧
    dotProduct (projectionBasis n).1 (projectionBasis n).2 = 0 ∧
    dotProduct (projectionBasis n).1 n = 0 ∧
    dotProduct (projectionBasis n).2 n = 0 ∧
    crossProduct (projectionBasis n).1 (projectionBasis n).2 = ⟨-n.x, -n.y, -n.z⟩ := by
  have hn' : n.x * n.x + n.y * n.y + n.z * n.z = 1 := hn
  simp only [projectionBasis]
  by_cases hcase : |n.x| < 9 / 10
  · rw [if_pos hcase]
    have hc : crossProduct ⟨1, 0, 0⟩ n ≠ (⟨0, 0, 0⟩ : Vec3) := by
      intro heq
      have h1 := congrArg Vec3.y heq
      have h2 := congrArg Vec3.z heq
      simp only [crossProduct] at h1 h2
      norm_num at h1 h2
      have habs := abs_lt.mp hcase
      nlinarith [habs.1, habs.2]
    exact basis_of_seed n ⟨1, 0, 0⟩ hn hc _ _ rfl rfl
  · rw [if_neg hcase]
    have hc : crossProduct ⟨0, 1, 0⟩ n ≠ (⟨0, 0, 0⟩ : Vec3) := by
      intro heq
      have h1 := congrArg Vec3.x heq
      have h2 := congrArg Vec3.z heq
      simp only [crossProduct] at h1 h2
      norm_num at h1 h2
      rw [h2, abs_zero] at hcase
      exact hcase (by norm_num)
    exact basis_of_seed n ⟨0, 1, 0⟩ hn hc _ _ rfl rfl

/-- Witness for C9 (amended) at the unit normal `n = (0,0,1)`. -/
theorem C9_projection_basis_witness :
    dotProduct ⟨0, 0, 1⟩ ⟨0, 0, 1⟩ = 1 ∧
    crossProduct (projectionBasis ⟨0, 0, 1⟩).1 (projectionBasis ⟨0, 0, 1⟩).2 =
      ⟨-(0:ℝ), -(0:ℝ), -(1:ℝ)⟩ := by
  have h : dotProduct ⟨0, 0, 1⟩ ⟨0, 0, 1⟩ = 1 := by norm_num [dotProduct]
  exact ⟨h, (C9_projection_basis_orthonormal_left_handed ⟨0, 0, 1⟩ h).2.2.2.2.2⟩

/-- Explicit evaluation of the projection basis at `n = (0,0,1)`. -/
theorem projectionBasis_at_e3 :
    projectionBasis ⟨0, 0, 1⟩ = (⟨1, 0, 0⟩, ⟨0, -1, 0⟩) := by
  have h1 : crossProduct ⟨1, 0, 0⟩ ⟨0, 0, 1⟩ = (⟨0, -1, 0⟩ : Vec3) := by
    norm_num [crossProduct]
  have h2 : normalizeVector ⟨0, -1, 0⟩ = (⟨0, -1, 0⟩ : Vec3) := by
    rw [normalizeVector_eq_of_sq ⟨0, -1, 0⟩ 1 one_pos (by norm_num)]
    norm_num
  have h3 : crossProduct ⟨0, 0, 1⟩ ⟨0, -1, 0⟩ = (⟨1, 0, 0⟩ : Vec3) := by
    norm_num [crossProduct]
  have h4 : normalizeVector ⟨1, 0, 0⟩ = (⟨1, 0, 0⟩ : Vec3) := by
    rw [normalizeVector_eq_of_sq ⟨1, 0, 0⟩ 1 one_pos (by norm_num)]
    norm_num
  simp only [projectionBasis]
  rw [if_pos (by norm_num : |(⟨0, 0, 1⟩ : Vec3).x| < 9 / 10), h1, h2, h3, h4]

/-- **C9 counterexample**: at the unit normal `n = (0,0,1)` (obtained e.g.
from the nonzero `G = cStar` of the cubic cell), the produced frame is not
right-handed: `xVector × yVector = (0,0,-1) ≠ n`. -/
theorem C9_counterexample :
    dotProduct ⟨0, 0, 1⟩ ⟨0, 0, 1⟩ = 1 ∧
    crossProduct (projectionBasis ⟨0, 0, 1⟩).1 (projectionBasis ⟨0, 0, 1⟩).2 ≠
      (⟨0, 0, 1⟩ : Vec3) := by
  constructor
  · norm_num [dotProduct]
  · rw [projectionBasis_at_e3]
    intro heq
    have h3 := congrArg Vec3.z heq
    norm_num [crossProduct] at h3

theorem sin88_bounds : 0 < Real.sin 88 ∧ Real.sin 88 < 711 / 20000 := by
  have hπl := Real.pi_gt_3141592
  have hπu := Real.pi_lt_3141593
  have hs : Real.sin 88 = Real.sin (88 - 28 * Real.pi) := by
    have h14 := Real.sin_add_int_mul_two_pi (88 - 28 * Real.pi) 14
    have heq : 88 - 28 * Real.pi + (((14 : ℤ) : ℝ)) * (2 * Real.pi) = 88 := by
      push_cast; ring
    rw [heq] at h14
    exact h14
  have hx1 : 0 < 88 - 28 * Real.pi := by nlinarith
  have hx2 : 88 - 28 * Real.pi < 711 / 20000 := by nlinarith
  constructor
  · rw [hs]
    exact Real.sin_pos_of_pos_of_lt_pi hx1 (by nlinarith)
  · rw [hs]
    exact lt_trans (Real.sin_lt hx1) hx2

/-- **C8** supporting theorem (code bug): at `badCell` the radicand for the
third component of the c-vector is negative, yet `getDirectLatticeVectors`
signals no domain error — it plainly returns a vector whose third component
is the square root of that negative radicand (`NaN` in JS, where
`Math.sqrt` of a negative number is `NaN`; the function has no failure
channel at all). -/
theorem C8_negative_radicand_not_guarded :
    directRadicand badCell < 0 ∧
    (getDirectLatticeVectors badCell).r2.z = Real.sqrt (directRadicand badCell) := by
  constructor
  · have h60 : (60 : ℝ) * Real.pi / 180 = Real.pi / 3 := by ring
    have h90 : (90 : ℝ) * Real.pi / 180 = Real.pi / 2 := by ring
    obtain ⟨hspos, hslt⟩ := sin88_bounds
    simp only [directRadicand, badCell]
    rw [h60, h90, Real.cos_pi_div_three, Real.cos_pi_div_two]
    have hcy : 1 * (1 / 2 - 0 * Real.cos ((88:ℝ) * Real.pi / 180)) / Real.sin 88 =
        (1 / 2) / Real.sin 88 := by ring
    rw [hcy]
    have h14 : (14 : ℝ) < (1 / 2) / Real.sin 88 := by
      rw [lt_div_iff hspos]
      nlinarith
    have hpos : 0 < (1 / 2) / Real.sin 88 := by positivity
    nlinarith
  · rfl

theorem list_sum_map_neg {α : Type} (l : List α) (f : α → ℝ) :
    (l.map fun a => -f a).sum = -((l.map f).sum) := by
  induction l with
  | nil => simp
  | cons a t ih => simp [ih]; ring

theorem structureFactorRe_neg (atoms : List AtomSite) (h k l : ℤ) :
    structureFactorRe atoms (-h) (-k) (-l) = structureFactorRe atoms h k l := by
  unfold structureFactorRe
  have hfun : (fun atom : AtomSite =>
      Real.cos (2 * Real.pi * (((-h : ℤ) : ℝ) * atom.x + ((-k : ℤ) : ℝ) * atom.y +
        ((-l : ℤ) : ℝ) * atom.z))) =
      fun atom : AtomSite =>
        Real.cos (2 * Real.pi * ((h : ℝ) * atom.x + (k : ℝ) * atom.y + (l : ℝ) * atom.z)) := by
    funext atom
    push_cast
    rw [show 2 * Real.pi * (-(h:ℝ) * atom.x + -(k:ℝ) * atom.y + -(l:ℝ) * atom.z) =
      -(2 * Real.pi * ((h:ℝ) * atom.x + (k:ℝ) * atom.y + (l:ℝ) * atom.z)) by ring,
      Real.cos_neg]
  rw [hfun]

theorem structureFactorIm_neg (atoms : List AtomSite) (h k l : ℤ) :
    structureFactorIm atoms (-h) (-k) (-l) = -structureFactorIm atoms h k l := by
  unfold structureFactorIm
  rw [← list_sum_map_neg]
  have hfun : (fun atom : AtomSite =>
      Real.sin (2 * Real.pi * (((-h : ℤ) : ℝ) * atom.x + ((-k : ℤ) : ℝ) * atom.y +
        ((-l : ℤ) : ℝ) * atom.z))) =
      fun atom : AtomSite =>
        -Real.sin (2 * Real.pi * ((h : ℝ) * atom.x + (k : ℝ) * atom.y + (l : ℝ) * atom.z)) := by
    funext atom
    push_cast
    rw [show 2 * Real.pi * (-(h:ℝ) * atom.x + -(k:ℝ) * atom.y + -(l:ℝ) * atom.z) =
      -(2 * Real.pi * ((h:ℝ) * atom.x + (k:ℝ) * atom.y + (l:ℝ) * atom.z)) by ring,
      Real.sin_neg]
  rw [hfun]

/-- **C4**: Friedel's law, exactly, by construction of the cosine/sine sum:
for every integer triple inside the symmetric index box computed from the
reciprocal vectors and every real atomic basis, the structure-factor
magnitude at `(h,k,l)` equals the one at `(-h,-k,-l)`. -/
theorem C4_friedel_law (recip : Mat3) (atoms : List AtomSite) (h k l : ℤ)
    (hh : -hRange recip ≤ h ∧ h ≤ hRange recip)
    (hk : -kRange recip ≤ k ∧ k ≤ kRange recip)
    (hl : -lRange recip ≤ l ∧ l ≤ lRange recip) :
    structureFactorMagnitude atoms h k l =
      structureFactorMagnitude atoms (-h) (-k) (-l) := by
  unfold structureFactorMagnitude
  rw [structureFactorRe_neg, structureFactorIm_neg, neg_sq]

/-- Witness for C4: the identity reciprocal triple has index ranges `1`, the
triple `(1,0,1)` is inside the box, and Friedel symmetry holds for the atom
basis `[(1/3, 0, 0)]`. -/
theorem C4_friedel_law_witness :
    hRange ⟨⟨1, 0, 0⟩, ⟨0, 1, 0⟩, ⟨0, 0, 1⟩⟩ = 1 ∧
    structureFactorMagnitude [⟨1/3, 0, 0, "A"⟩] 1 0 1 =
      structureFactorMagnitude [⟨1/3, 0, 0, "A"⟩] (-1) (-0) (-1) := by
  have hr : hRange ⟨⟨1, 0, 0⟩, ⟨0, 1, 0⟩, ⟨0, 0, 1⟩⟩ = 1 := by
    simp only [hRange, dotProduct, k_max]
    norm_num
  have hkr : kRange ⟨⟨1, 0, 0⟩, ⟨0, 1, 0⟩, ⟨0, 0, 1⟩⟩ = 1 := by
    simp only [kRange, dotProduct, k_max]
    norm_num
  have hlr : lRange ⟨⟨1, 0, 0⟩, ⟨0, 1, 0⟩, ⟨0, 0, 1⟩⟩ = 1 := by
    simp only [lRange, dotProduct, k_max]
    norm_num
  refine ⟨hr, C4_friedel_law ⟨⟨1, 0, 0⟩, ⟨0, 1, 0⟩, ⟨0, 0, 1⟩⟩ [⟨1/3, 0, 0, "A"⟩] 1 0 1
    ⟨?_, ?_⟩ ⟨?_, ?_⟩ ⟨?_, ?_⟩⟩ <;>
    simp only [hr, hkr, hlr] <;> norm_num

theorem jsRound_eq (x : ℝ) (m : ℤ) (h1 : (m : ℝ) - 1 / 2 ≤ x) (h2 : x < (m : ℝ) + 1 / 2) :
    jsRound x = m := by
  unfold jsRound
  rw [Int.floor_eq_iff]
  constructor
  · linarith
  · push_cast
    linarith

theorem jsRound_bounds (x : ℝ) :
    (jsRound x : ℝ) - 1 / 2 ≤ x ∧ x < (jsRound x : ℝ) + 1 / 2 := by
  unfold jsRound
  have h1 := Int.floor_le (x + 1 / 2)
  have h2 := Int.lt_floor_add_one (x + 1 / 2)
  constructor <;> push_cast at h1 h2 ⊢ <;> linarith

/-- If `x` rounds to a multiple of `d ≥ 1`, then `x / d` rounds to the exact
integer quotient: the second rounding of the resolver cannot move off the
lattice of multiples. -/
theorem jsRound_div_of_dvd (x : ℝ) (d : ℤ) (hd : 1 ≤ d) (hdvd : d ∣ jsRound x) :
    jsRound (x / (d : ℝ)) = jsRound x / d := by
  obtain ⟨q, hq⟩ := hdvd
  have hb := jsRound_bounds x
  rw [hq] at hb
  have hd0 : (0 : ℝ) < (d : ℝ) := by exact_mod_cast lt_of_lt_of_le one_pos hd
  have hd1 : (1 : ℝ) ≤ (d : ℝ) := by exact_mod_cast hd
  rw [hq, Int.mul_ediv_cancel_left _ (by omega : d ≠ 0)]
  apply jsRound_eq
  · rw [sub_le_iff_le_add, div_add' _ _ _ hd0.ne', le_div_iff hd0]
    push_cast at hb ⊢
    nlinarith [hb.1]
  · rw [div_lt_iff hd0]
    push_cast at hb ⊢
    nlinarith [hb.2]

/-- Dividing three integers by their (pairwise-computed, nonzero) GCD yields
a coprime triple. -/
theorem triple_gcd_div_coprime (v0 v1 v2 : ℤ)
    (hg : ((Int.gcd (Int.gcd v0 v1) v2 : ℤ)) ≠ 0) :
    Int.gcd (Int.gcd (v0 / (Int.gcd (Int.gcd v0 v1) v2 : ℤ))
        (v1 / (Int.gcd (Int.gcd v0 v1) v2 : ℤ)))
      (v2 / (Int.gcd (Int.gcd v0 v1) v2 : ℤ)) = 1 := by
  set A : ℕ := Int.gcd v0 v1 with hA
  set G : ℕ := Int.gcd (A : ℤ) v2 with hG
  set g : ℤ := (G : ℤ) with hgdef
  have hgA : g ∣ (A : ℤ) := Int.gcd_dvd_left
  have hgv0 : g ∣ v0 := hgA.trans Int.gcd_dvd_left
  have hgv1 : g ∣ v1 := hgA.trans Int.gcd_dvd_right
  have hgv2 : g ∣ v2 := Int.gcd_dvd_right
  have hGA : G ∣ A := Int.natCast_dvd_natCast.mp hgA
  have hGB : G ∣ v2.natAbs := by
    have h1 := Int.natAbs_dvd_natAbs.mpr hgv2
    rwa [hgdef, Int.natAbs_ofNat] at h1
  have hGpos : 0 < G := by
    rcases Nat.eq_zero_or_pos G with h0 | hpos
    · exact absurd (by rw [hgdef, h0]; rfl) hg
    · exact hpos
  have step1 : Int.gcd (v0 / g) (v1 / g) = A / G := by
    rw [Int.gcd_div hgv0 hgv1, hgdef, Int.natAbs_ofNat]
  rw [step1]
  show Nat.gcd (((A / G : ℕ) : ℤ)).natAbs (v2 / g).natAbs = 1
  rw [Int.natAbs_ofNat, Int.natAbs_ediv v2 g hgv2, hgdef, Int.natAbs_ofNat,
    Nat.gcd_div hGA hGB]
  show G / G = 1
  exact Nat.div_self hGpos

/-- The quotient of a nonzero integer by a divisor is nonzero. -/
theorem ediv_ne_zero_of_ne_zero {v g : ℤ} (hv : v ≠ 0) (hdvd : g ∣ v) :
    v / g ≠ 0 := by
  intro h0
  apply hv
  have h1 := Int.ediv_mul_cancel hdvd
  rw [h0] at h1
  simpa using h1.symm

/-- Canonical form of the reduction tail: the result is the `(0,0,0)`
sentinel or a coprime triple whose first nonzero component is positive. -/
theorem normalizeSnappedHKL_canonical (h k l : ℝ) :
    normalizeSnappedHKL h k l = (0, 0, 0) ∨
    (Int.gcd (Int.gcd (normalizeSnappedHKL h k l).1 (normalizeSnappedHKL h k l).2.1)
        (normalizeSnappedHKL h k l).2.2 = 1 ∧
      (0 < (normalizeSnappedHKL h k l).1 ∨
       ((normalizeSnappedHKL h k l).1 = 0 ∧ 0 < (normalizeSnappedHKL h k l).2.1) ∨
       ((normalizeSnappedHKL h k l).1 = 0 ∧ (normalizeSnappedHKL h k l).2.1 = 0 ∧
        0 < (normalizeSnappedHKL h k l).2.2))) := by
  simp only [normalizeSnappedHKL]
  set v0 := jsRound (h * 1000) with hv0def
  set v1 := jsRound (k * 1000) with hv1def
  set v2 := jsRound (l * 1000) with hv2def
  set g : ℤ := (Int.gcd (Int.gcd v0 v1) v2 : ℤ) with hgdef
  split_ifs with h0 hgz hs
  · exact Or.inl rfl
  · exact Or.inl rfl
  all_goals (
    have hgnn : 0 ≤ g := by rw [hgdef]; exact Int.natCast_nonneg _
    have hg1 : 1 ≤ g := by omega
    have hgA : g ∣ ((Int.gcd v0 v1 : ℕ) : ℤ) := by rw [hgdef]; exact Int.gcd_dvd_left
    have hgv0 : g ∣ v0 := hgA.trans Int.gcd_dvd_left
    have hgv1 : g ∣ v1 := hgA.trans Int.gcd_dvd_right
    have hgv2 : g ∣ v2 := by rw [hgdef]; exact Int.gcd_dvd_right
    have heq0 : jsRound (h / ((g : ℝ) / 1000)) = v0 / g := by
      rw [div_div_eq_mul_div, jsRound_div_of_dvd (h * 1000) g hg1 hgv0, ← hv0def]
    have heq1 : jsRound (k / ((g : ℝ) / 1000)) = v1 / g := by
      rw [div_div_eq_mul_div, jsRound_div_of_dvd (k * 1000) g hg1 hgv1, ← hv1def]
    have heq2 : jsRound (l / ((g : ℝ) / 1000)) = v2 / g := by
      rw [div_div_eq_mul_div, jsRound_div_of_dvd (l * 1000) g hg1 hgv2, ← hv2def]
    have hcop : Int.gcd (Int.gcd (v0 / g) (v1 / g)) (v2 / g) = 1 := by
      rw [hgdef]
      exact triple_gcd_div_coprime v0 v1 v2 (by rw [← hgdef]; exact fun hc => hgz hc)
    have hsome : ¬(v0 = 0 ∧ v1 = 0 ∧ v2 = 0) := by
      intro ⟨e0, e1, e2⟩
      apply hgz
      rw [hgdef, e0, e1, e2]
      rfl
    have hnzq : ¬(v0 / g = 0 ∧ v1 / g = 0 ∧ v2 / g = 0) := by
      intro ⟨q0, q1, q2⟩
      apply hsome
      refine ⟨?_, ?_, ?_⟩
      · by_contra hne; exact ediv_ne_zero_of_ne_zero hne hgv0 q0
      · by_contra hne; exact ediv_ne_zero_of_ne_zero hne hgv1 q1
      · by_contra hne; exact ediv_ne_zero_of_ne_zero hne hgv2 q2
    right)
  · -- sign-flip branch
    rw [heq0, heq1, heq2] at hs
    dsimp only
    rw [heq0, heq1, heq2]
    constructor
    · show Int.gcd (Int.gcd (-(v0 / g)) (-(v1 / g))) (-(v2 / g)) = 1
      simp only [Int.gcd, Int.natAbs_neg]
      exact hcop
    · rcases hs.2 with h1 | ⟨h1, h2⟩ | ⟨h1, h2, h3⟩ <;> omega
  · -- already canonical branch
    rw [heq0, heq1, heq2] at hs
    dsimp only
    rw [heq0, heq1, heq2]
    refine ⟨hcop, ?_⟩
    have hdisj : ¬((v0 / g) < 0 ∨ ((v0 / g) = 0 ∧ (v1 / g) < 0) ∨
        ((v0 / g) = 0 ∧ (v1 / g) = 0 ∧ (v2 / g) < 0)) := fun hd => hs ⟨hnzq, hd⟩
    omega

/-- **C5**: every non-null result of `getMillerIndicesFromCamera` is either
the `(0,0,0)` sentinel (all snapped or scaled components zero) or an integer
triple reduced to coprime form by the GCD division, whose first nonzero
component, in `h` then `k` then `l` order, is positive. -/
theorem C5_resolver_canonical_form (cameraEye : Vec3) (direct recip : Mat3)
    (r : ℤ × ℤ × ℤ)
    (hres : getMillerIndicesFromCamera cameraEye direct recip = some r) :
    r = (0, 0, 0) ∨
    (Int.gcd (Int.gcd r.1 r.2.1) r.2.2 = 1 ∧
      (0 < r.1 ∨ (r.1 = 0 ∧ 0 < r.2.1) ∨ (r.1 = 0 ∧ r.2.1 = 0 ∧ 0 < r.2.2))) := by
  simp only [getMillerIndicesFromCamera] at hres
  split at hres
  · exact absurd hres (by simp)
  · rw [Option.some_inj] at hres
    rw [← hres]
    exact normalizeSnappedHKL_canonical _ _ _

theorem matrixInverse3x3_idMat3 : matrixInverse3x3 idMat3 = some idMat3 := by
  simp only [matrixInverse3x3, idMat3]
  norm_num

theorem normalizeSnappedHKL_100 : normalizeSnappedHKL 1 0 0 = (1, 0, 0) := by
  have r1 : jsRound ((1 : ℝ) * 1000) = 1000 := jsRound_eq _ 1000 (by norm_num) (by norm_num)
  have r2 : jsRound ((0 : ℝ) * 1000) = 0 := jsRound_eq _ 0 (by norm_num) (by norm_num)
  have hg : ((Int.gcd (Int.gcd (1000 : ℤ) 0) 0 : ℕ) : ℤ) = 1000 := by
    norm_num [Int.gcd]
  have r3 : jsRound ((1 : ℝ) / (((1000 : ℤ) : ℝ) / 1000)) = 1 := by
    apply jsRound_eq <;> push_cast <;> norm_num
  have r4 : jsRound ((0 : ℝ) / (((1000 : ℤ) : ℝ) / 1000)) = 0 := by
    apply jsRound_eq <;> push_cast <;> norm_num
  simp only [normalizeSnappedHKL, r1, r2, hg, r3, r4]
  norm_num

theorem getMiller_id_100 :
    getMillerIndicesFromCamera ⟨1, 0, 0⟩ idMat3 idMat3 = some (1, 0, 0) := by
  have hM : matrixInverse3x3 (⟨⟨idMat3.r0.x, idMat3.r1.x, idMat3.r2.x⟩,
      ⟨idMat3.r0.y, idMat3.r1.y, idMat3.r2.y⟩,
      ⟨idMat3.r0.z, idMat3.r1.z, idMat3.r2.z⟩⟩ : Mat3) = some idMat3 := by
    norm_num [idMat3, matrixInverse3x3, Mat3.mk.injEq, Vec3.mk.injEq]
  have hmul : matVecMul idMat3 ⟨1, 0, 0⟩ = ⟨1, 0, 0⟩ := by
    norm_num [matVecMul, idMat3, Vec3.mk.injEq]
  simp only [getMillerIndicesFromCamera, hM, hmul]
  norm_num [normalizeSnappedHKL_100]

/-- Witness for C5: with the identity reciprocal triple and view direction
`(1,0,0)` the resolver returns `(1,0,0)`, which is coprime with positive
first component. -/
theorem C5_resolver_canonical_form_witness :
    getMillerIndicesFromCamera ⟨1, 0, 0⟩ idMat3 idMat3 = some (1, 0, 0) ∧
    (((1:ℤ), (0:ℤ), (0:ℤ)) = ((0:ℤ), (0:ℤ), (0:ℤ)) ∨
      (Int.gcd (Int.gcd ((1:ℤ), (0:ℤ), (0:ℤ)).1 ((1:ℤ), (0:ℤ), (0:ℤ)).2.1)
          ((1:ℤ), (0:ℤ), (0:ℤ)).2.2 = 1 ∧
        (0 < ((1:ℤ), (0:ℤ), (0:ℤ)).1 ∨
         (((1:ℤ), (0:ℤ), (0:ℤ)).1 = 0 ∧ 0 < ((1:ℤ), (0:ℤ), (0:ℤ)).2.1) ∨
         (((1:ℤ), (0:ℤ), (0:ℤ)).1 = 0 ∧ ((1:ℤ), (0:ℤ), (0:ℤ)).2.1 = 0 ∧
          0 < ((1:ℤ), (0:ℤ), (0:ℤ)).2.2)))) :=
  ⟨getMiller_id_100,
   C5_resolver_canonical_form ⟨1, 0, 0⟩ idMat3 idMat3 (1, 0, 0) getMiller_id_100⟩

theorem cosBeta_root : 8 * cosBeta ^ 3 - 6 * cosBeta - 1 = 0 := by
  have h := Real.cos_three_mul (100 * Real.pi / 180)
  rw [show (3 : ℝ) * (100 * Real.pi / 180) = 2 * Real.pi - Real.pi / 3 by ring,
    Real.cos_two_pi_sub, Real.cos_pi_div_three] at h
  unfold cosBeta
  linarith

theorem cosBeta_neg : cosBeta < 0 := by
  have hπ := Real.pi_pos
  exact Real.cos_neg_of_pi_div_two_lt_of_lt (by nlinarith) (by nlinarith)

theorem cosBeta_gt_neg_half : -(1 / 2 : ℝ) < cosBeta := by
  have hπ := Real.pi_pos
  have h := Real.cos_lt_cos_of_nonneg_of_le_pi
    (x := 100 * Real.pi / 180) (y := 2 * Real.pi / 3)
    (by positivity) (by nlinarith) (by nlinarith)
  rw [show (2 * Real.pi / 3) = Real.pi - Real.pi / 3 by ring,
    Real.cos_pi_sub, Real.cos_pi_div_three] at h
  exact h

/-- Numerical isolation of `cos 100°` via its minimal cubic
`8x³ - 6x - 1 = 0` on `(-1/2, 0)`. -/
theorem cosBeta_bounds :
    -(17364818 / 100000000 : ℝ) < cosBeta ∧ cosBeta < -(17364817 / 100000000 : ℝ) := by
  have hc := cosBeta_root
  have h1 := cosBeta_gt_neg_half
  have h2 := cosBeta_neg
  have hsq : cosBeta ^ 2 < 1 / 4 := by
    nlinarith [mul_pos (show (0:ℝ) < cosBeta + 1 / 2 by linarith)
      (show (0:ℝ) < -cosBeta by linarith)]
  constructor
  · by_contra hA
    push_neg at hA
    have hkey : (8 * cosBeta ^ 3 - 6 * cosBeta - 1) -
        (8 * (-(17364818 / 100000000 : ℝ)) ^ 3 - 6 * (-(17364818 / 100000000 : ℝ)) - 1) =
        (cosBeta + 17364818 / 100000000) *
          (8 * (cosBeta ^ 2 - cosBeta * (17364818 / 100000000) +
            (17364818 / 100000000 : ℝ) ^ 2) - 6) := by ring
    have hnum : (0 : ℝ) <
        8 * (-(17364818 / 100000000 : ℝ)) ^ 3 - 6 * (-(17364818 / 100000000 : ℝ)) - 1 := by
      norm_num
    have hfac : 8 * (cosBeta ^ 2 - cosBeta * (17364818 / 100000000) +
        (17364818 / 100000000 : ℝ) ^ 2) - 6 < 0 := by nlinarith
    have hprod : 0 ≤ (cosBeta + 17364818 / 100000000) *
        (8 * (cosBeta ^ 2 - cosBeta * (17364818 / 100000000) +
          (17364818 / 100000000 : ℝ) ^ 2) - 6) := by
      nlinarith [mul_nonneg (neg_nonneg.mpr (show cosBeta + 17364818 / 100000000 ≤ 0 by linarith))
        (neg_nonneg.mpr (le_of_lt hfac))]
    linarith
  · by_contra hB
    push_neg at hB
    have hkey : (8 * cosBeta ^ 3 - 6 * cosBeta - 1) -
        (8 * (-(17364817 / 100000000 : ℝ)) ^ 3 - 6 * (-(17364817 / 100000000 : ℝ)) - 1) =
        (cosBeta + 17364817 / 100000000) *
          (8 * (cosBeta ^ 2 - cosBeta * (17364817 / 100000000) +
            (17364817 / 100000000 : ℝ) ^ 2) - 6) := by ring
    have hnum : 8 * (-(17364817 / 100000000 : ℝ)) ^ 3 - 6 * (-(17364817 / 100000000 : ℝ)) - 1
        < 0 := by norm_num
    have hfac : 8 * (cosBeta ^ 2 - cosBeta * (17364817 / 100000000) +
        (17364817 / 100000000 : ℝ) ^ 2) - 6 < 0 := by nlinarith
    have hprod : (cosBeta + 17364817 / 100000000) *
        (8 * (cosBeta ^ 2 - cosBeta * (17364817 / 100000000) +
          (17364817 / 100000000 : ℝ) ^ 2) - 6) ≤ 0 := by
      nlinarith [mul_nonneg (show (0:ℝ) ≤ cosBeta + 17364817 / 100000000 by linarith)
        (neg_nonneg.mpr (le_of_lt hfac))]
    linarith

theorem cosBetaSq_bounds :
    (17364817 / 100000000 : ℝ) ^ 2 < cosBeta ^ 2 ∧
    cosBeta ^ 2 < (17364818 / 100000000 : ℝ) ^ 2 := by
  obtain ⟨hl, hu⟩ := cosBeta_bounds
  constructor <;> nlinarith

theorem one_sub_cosBetaSq_pos : 0 < 1 - cosBeta ^ 2 := by
  have h := cosBetaSq_bounds
  nlinarith [h.2]

theorem sinBeta_pos : 0 < sinBeta :=
  Real.sqrt_pos.mpr one_sub_cosBetaSq_pos

theorem sinBeta_sq : sinBeta ^ 2 = 1 - cosBeta ^ 2 :=
  Real.sq_sqrt (le_of_lt one_sub_cosBetaSq_pos)

theorem sqrt_49 : Real.sqrt 49 = 7 := by
  rw [show (49 : ℝ) = 7 ^ 2 by norm_num, Real.sqrt_sq (by norm_num : (0:ℝ) ≤ 7)]

theorem directLattice_mono :
    getDirectLatticeVectors monoCell =
      ⟨⟨5, 0, 0⟩, ⟨0, 6, 0⟩, ⟨7 * cosBeta, 0, 7 * sinBeta⟩⟩ := by
  have h90 : (90 : ℝ) * Real.pi / 180 = Real.pi / 2 := by ring
  have hcos90 : Real.cos ((90 : ℝ) * Real.pi / 180) = 0 := by
    rw [h90]
    exact Real.cos_pi_div_two
  have hsin90 : Real.sin ((90 : ℝ) * Real.pi / 180) = 1 := by
    rw [h90]
    exact Real.sin_pi_div_two
  simp only [getDirectLatticeVectors, monoCell, hcos90, hsin90, mul_zero, mul_one,
    zero_mul, sub_zero, zero_sub, neg_zero, zero_div]
  refine Mat3.ext rfl rfl (Vec3.ext rfl rfl ?_)
  show Real.sqrt (7 * 7 - 7 * Real.cos (100 * Real.pi / 180) *
      (7 * Real.cos (100 * Real.pi / 180))) = 7 * sinBeta
  rw [show (7 : ℝ) * 7 - 7 * Real.cos (100 * Real.pi / 180) *
      (7 * Real.cos (100 * Real.pi / 180)) = 49 * (1 - cosBeta ^ 2) from by
    unfold cosBeta; ring,
    Real.sqrt_mul (by norm_num : (0:ℝ) ≤ 49), sqrt_49]
  rfl

theorem recip_cubic :
    getReciprocalLatticeVectors ⟨⟨5, 0, 0⟩, ⟨0, 5, 0⟩, ⟨0, 0, 5⟩⟩ = some cubicRecip := by
  simp only [getReciprocalLatticeVectors, crossProduct, dotProduct, vecDiv, cubicRecip]
  norm_num

theorem recip_mono :
    getReciprocalLatticeVectors ⟨⟨5, 0, 0⟩, ⟨0, 6, 0⟩, ⟨7 * cosBeta, 0, 7 * sinBeta⟩⟩ =
      some monoRecip := by
  have hs := sinBeta_pos
  have hsne : sinBeta ≠ 0 := hs.ne'
  simp only [getReciprocalLatticeVectors, crossProduct, dotProduct, vecDiv, monoRecip]
  rw [if_neg (show ¬(5 : ℝ) * (6 * (7 * sinBeta) - 0 * 0) +
      0 * (0 * (7 * cosBeta) - 0 * (7 * sinBeta)) +
      0 * (0 * 0 - 6 * (7 * cosBeta)) = 0 from by intro h0; nlinarith)]
  refine congrArg some (Mat3.ext (Vec3.ext ?_ ?_ ?_) (Vec3.ext ?_ ?_ ?_)
    (Vec3.ext ?_ ?_ ?_)) <;>
    field_simp <;> ring

theorem inv_cubicM :
    matrixInverse3x3 ⟨⟨cubicRecip.r0.x, cubicRecip.r1.x, cubicRecip.r2.x⟩,
      ⟨cubicRecip.r0.y, cubicRecip.r1.y, cubicRecip.r2.y⟩,
      ⟨cubicRecip.r0.z, cubicRecip.r1.z, cubicRecip.r2.z⟩⟩ =
      some ⟨⟨5, 0, 0⟩, ⟨0, 5, 0⟩, ⟨0, 0, 5⟩⟩ := by
  simp only [matrixInverse3x3, cubicRecip]
  norm_num

theorem inv_monoM :
    matrixInverse3x3 ⟨⟨monoRecip.r0.x, monoRecip.r1.x, monoRecip.r2.x⟩,
      ⟨monoRecip.r0.y, monoRecip.r1.y, monoRecip.r2.y⟩,
      ⟨monoRecip.r0.z, monoRecip.r1.z, monoRecip.r2.z⟩⟩ =
      some ⟨⟨5, 0, 0⟩, ⟨0, 6, 0⟩, ⟨7 * cosBeta, 0, 7 * sinBeta⟩⟩ := by
  have hs := sinBeta_pos
  have hsne : sinBeta ≠ 0 := hs.ne'
  have hdet : (1 : ℝ) / 5 * (1 / 6 * (1 / (7 * sinBeta)) - 0 * 0) -
      0 * (0 * (1 / (7 * sinBeta)) - 0 * (-cosBeta / (5 * sinBeta))) +
      0 * (0 * 0 - 1 / 6 * (-cosBeta / (5 * sinBeta))) = 1 / (210 * sinBeta) := by
    field_simp
    ring
  simp only [matrixInverse3x3, monoRecip]
  rw [hdet, if_neg (div_pos one_pos
    (by nlinarith : (0:ℝ) < 210 * sinBeta)).ne']
  refine congrArg some (Mat3.ext (Vec3.ext ?_ ?_ ?_) (Vec3.ext ?_ ?_ ?_)
    (Vec3.ext ?_ ?_ ?_)) <;>
    field_simp <;> ring

theorem sqrt_bounds_of_sq (S lo hi : ℝ) (hlo : 0 ≤ lo) (hhi : 0 < hi)
    (h1 : lo ^ 2 < S) (h2 : S < hi ^ 2) :
    lo < Real.sqrt S ∧ Real.sqrt S < hi :=
  ⟨(Real.lt_sqrt hlo).mpr h1, (Real.sqrt_lt' hhi).mpr h2⟩

theorem jsRound_div_m (A m : ℝ) (v : ℤ) (hm : 0 < m)
    (h1 : ((v : ℝ) - 1 / 2) * m ≤ A) (h2 : A < ((v : ℝ) + 1 / 2) * m) :
    jsRound (A / m) = v := by
  apply jsRound_eq
  · rw [le_div_iff hm]
    exact h1
  · rw [div_lt_iff hm]
    exact h2

/-- Evaluation shape of the reduction tail with known intermediate values. -/
theorem normalizeSnappedHKL_eval (h k l : ℝ) (v0 v1 v2 g q0 q1 q2 : ℤ)
    (hnz : ¬(h = 0 ∧ k = 0 ∧ l = 0))
    (hv0 : jsRound (h * 1000) = v0) (hv1 : jsRound (k * 1000) = v1)
    (hv2 : jsRound (l * 1000) = v2)
    (hg : ((Int.gcd (Int.gcd v0 v1) v2 : ℕ) : ℤ) = g) (hgne : ¬g = 0)
    (hq0 : jsRound (h / ((g : ℝ) / 1000)) = q0)
    (hq1 : jsRound (k / ((g : ℝ) / 1000)) = q1)
    (hq2 : jsRound (l / ((g : ℝ) / 1000)) = q2)
    (hcond : ¬(¬(q0 = 0 ∧ q1 = 0 ∧ q2 = 0) ∧
      (q0 < 0 ∨ (q0 = 0 ∧ q1 < 0) ∨ (q0 = 0 ∧ q1 = 0 ∧ q2 < 0)))) :
    normalizeSnappedHKL h k l = (q0, q1, q2) := by
  simp only [normalizeSnappedHKL, hv0, hv1, hv2, hg, hq0, hq1, hq2]
  rw [if_neg hnz, if_neg hgne, if_neg hcond]

/-- Evaluation shape of the full resolver with known intermediate values. -/
theorem getMillerIndicesFromCamera_eval (cameraEye : Vec3) (direct recip Minv : Mat3)
    (a b c h k l : ℝ) (r : ℤ × ℤ × ℤ)
    (hM : matrixInverse3x3 ⟨⟨recip.r0.x, recip.r1.x, recip.r2.x⟩,
      ⟨recip.r0.y, recip.r1.y, recip.r2.y⟩,
      ⟨recip.r0.z, recip.r1.z, recip.r2.z⟩⟩ = some Minv)
    (hmul : matVecMul Minv cameraEye = ⟨a, b, c⟩)
    (hh : (if |a| < 1 / 1000000 then 0 else a) = h)
    (hk : (if |b| < 1 / 1000000 then 0 else b) = k)
    (hl : (if |c| < 1 / 1000000 then 0 else c) = l)
    (hres : normalizeSnappedHKL h k l = r) :
    getMillerIndicesFromCamera cameraEye direct recip = some r := by
  simp only [getMillerIndicesFromCamera, hM, hmul, hh, hk, hl, hres]

theorem resolve_cubic_011 :
    getMillerIndicesFromCamera (normalizeVector (gVector cubicRecip 0 1 1))
      cubicDirect cubicRecip = some (0, 1, 1) := by
  set m := Real.sqrt ((2 : ℝ) / 25) with hmdef
  have hmb : (2828427 / 10000000 : ℝ) < m ∧ m < (2828428 / 10000000 : ℝ) :=
    sqrt_bounds_of_sq _ _ _ (by norm_num) (by norm_num) (by norm_num) (by norm_num)
  have hm : 0 < m := lt_trans (by norm_num) hmb.1
  have hG : gVector cubicRecip 0 1 1 = ⟨0, 1/5, 1/5⟩ := by
    simp only [gVector, cubicRecip]
    refine Vec3.ext ?_ ?_ ?_ <;> norm_num
  have hnorm : normalizeVector ⟨0, 1/5, 1/5⟩ = ⟨0 / m, (1/5) / m, (1/5) / m⟩ := by
    apply normalizeVector_eq_of_sq _ m hm
    rw [hmdef, Real.sq_sqrt (by norm_num : (0:ℝ) ≤ 2/25)]
    norm_num
  have hmul : matVecMul ⟨⟨5, 0, 0⟩, ⟨0, 5, 0⟩, ⟨0, 0, 5⟩⟩ ⟨0 / m, (1/5) / m, (1/5) / m⟩ =
      ⟨0, 1/m, 1/m⟩ := by
    simp only [matVecMul]
    refine Vec3.ext ?_ ?_ ?_ <;> field_simp
  have hsnap : ¬|1/m| < 1 / 1000000 := by
    rw [abs_of_pos (one_div_pos.mpr hm)]
    intro hlt
    rw [div_lt_div_iff hm (by norm_num)] at hlt
    nlinarith [hmb.2]
  have hv1 : jsRound ((1/m) * 1000) = 3536 := by
    rw [show (1/m) * 1000 = 1000 / m from by ring]
    exact jsRound_div_m 1000 m 3536 hm (by push_cast; nlinarith [hmb.2])
      (by push_cast; nlinarith [hmb.1])
  have hv0 : jsRound ((0:ℝ) * 1000) = 0 := jsRound_eq _ 0 (by norm_num) (by norm_num)
  have hq1 : jsRound ((1/m) / (((3536 : ℤ) : ℝ) / 1000)) = 1 := by
    rw [show (1/m) / (((3536 : ℤ) : ℝ) / 1000) = (1000 / 3536) / m from by push_cast; ring]
    exact jsRound_div_m (1000 / 3536) m 1 hm (by push_cast; nlinarith [hmb.2])
      (by push_cast; nlinarith [hmb.1])
  have hq0 : jsRound ((0:ℝ) / (((3536 : ℤ) : ℝ) / 1000)) = 0 := by
    rw [show (0:ℝ) / (((3536 : ℤ) : ℝ) / 1000) = 0 from by norm_num]
    exact jsRound_eq _ 0 (by norm_num) (by norm_num)
  refine getMillerIndicesFromCamera_eval _ _ _ ⟨⟨5, 0, 0⟩, ⟨0, 5, 0⟩, ⟨0, 0, 5⟩⟩
    0 (1/m) (1/m) 0 (1/m) (1/m) (0, 1, 1) inv_cubicM ?_ ?_ ?_ ?_ ?_
  · rw [hG, hnorm]
    exact hmul
  · norm_num
  · exact if_neg hsnap
  · exact if_neg hsnap
  · refine normalizeSnappedHKL_eval 0 (1/m) (1/m) 0 3536 3536 3536 0 1 1
      ?_ hv0 hv1 hv1 (by norm_num) (by norm_num) hq0 hq1 hq1 (by decide)
    intro hz
    exact absurd hz.2.1 (one_div_pos.mpr hm).ne'

theorem resolve_cubic_100 :
    getMillerIndicesFromCamera (normalizeVector (gVector cubicRecip 1 0 0))
      cubicDirect cubicRecip = some (1, 0, 0) := by
  set m := Real.sqrt ((1 : ℝ) / 25) with hmdef
  have hmb : (1999999 / 10000000 : ℝ) < m ∧ m < (2000001 / 10000000 : ℝ) :=
    sqrt_bounds_of_sq _ _ _ (by norm_num) (by norm_num) (by norm_num) (by norm_num)
  have hm : 0 < m := lt_trans (by norm_num) hmb.1
  have hG : gVector cubicRecip 1 0 0 = ⟨1/5, 0, 0⟩ := by
    simp only [gVector, cubicRecip]
    refine Vec3.ext ?_ ?_ ?_ <;> norm_num
  have hnorm : normalizeVector ⟨1/5, 0, 0⟩ = ⟨(1/5) / m, 0 / m, 0 / m⟩ := by
    apply normalizeVector_eq_of_sq _ m hm
    rw [hmdef, Real.sq_sqrt (by norm_num : (0:ℝ) ≤ 1/25)]
    norm_num
  have hmul : matVecMul ⟨⟨5, 0, 0⟩, ⟨0, 5, 0⟩, ⟨0, 0, 5⟩⟩ ⟨(1/5) / m, 0 / m, 0 / m⟩ =
      ⟨1/m, 0, 0⟩ := by
    simp only [matVecMul]
    refine Vec3.ext ?_ ?_ ?_ <;> field_simp
  have hsnap : ¬|1/m| < 1 / 1000000 := by
    rw [abs_of_pos (one_div_pos.mpr hm)]
    intro hlt
    rw [div_lt_div_iff hm (by norm_num)] at hlt
    nlinarith [hmb.2]
  have hv1 : jsRound ((1/m) * 1000) = 5000 := by
    rw [show (1/m) * 1000 = 1000 / m from by ring]
    exact jsRound_div_m 1000 m 5000 hm (by push_cast; nlinarith [hmb.2])
      (by push_cast; nlinarith [hmb.1])
  have hv0 : jsRound ((0:ℝ) * 1000) = 0 := jsRound_eq _ 0 (by norm_num) (by norm_num)
  have hq1 : jsRound ((1/m) / (((5000 : ℤ) : ℝ) / 1000)) = 1 := by
    rw [show (1/m) / (((5000 : ℤ) : ℝ) / 1000) = (1000 / 5000) / m from by push_cast; ring]
    exact jsRound_div_m (1000 / 5000) m 1 hm (by push_cast; nlinarith [hmb.2])
      (by push_cast; nlinarith [hmb.1])
  have hq0 : jsRound ((0:ℝ) / (((5000 : ℤ) : ℝ) / 1000)) = 0 := by
    rw [show (0:ℝ) / (((5000 : ℤ) : ℝ) / 1000) = 0 from by norm_num]
    exact jsRound_eq _ 0 (by norm_num) (by norm_num)
  refine getMillerIndicesFromCamera_eval _ _ _ ⟨⟨5, 0, 0⟩, ⟨0, 5, 0⟩, ⟨0, 0, 5⟩⟩
    (1/m) 0 0 (1/m) 0 0 (1, 0, 0) inv_cubicM ?_ ?_ ?_ ?_ ?_
  · rw [hG, hnorm]
    exact hmul
  · exact if_neg hsnap
  · norm_num
  · norm_num
  · refine normalizeSnappedHKL_eval (1/m) 0 0 5000 0 0 5000 1 0 0
      ?_ hv1 hv0 hv0 (by norm_num) (by norm_num) hq1 hq0 hq0 (by decide)
    intro hz
    exact absurd hz.1 (one_div_pos.mpr hm).ne'

theorem resolve_cubic_111 :
    getMillerIndicesFromCamera (normalizeVector (gVector cubicRecip 1 1 1))
      cubicDirect cubicRecip = some (1, 1, 1) := by
  set m := Real.sqrt ((3 : ℝ) / 25) with hmdef
  have hmb : (3464101 / 10000000 : ℝ) < m ∧ m < (3464102 / 10000000 : ℝ) :=
    sqrt_bounds_of_sq _ _ _ (by norm_num) (by norm_num) (by norm_num) (by norm_num)
  have hm : 0 < m := lt_trans (by norm_num) hmb.1
  have hG : gVector cubicRecip 1 1 1 = ⟨1/5, 1/5, 1/5⟩ := by
    simp only [gVector, cubicRecip]
    refine Vec3.ext ?_ ?_ ?_ <;> norm_num
  have hnorm : normalizeVector ⟨1/5, 1/5, 1/5⟩ = ⟨(1/5) / m, (1/5) / m, (1/5) / m⟩ := by
    apply normalizeVector_eq_of_sq _ m hm
    rw [hmdef, Real.sq_sqrt (by norm_num : (0:ℝ) ≤ 3/25)]
    norm_num
  have hmul : matVecMul ⟨⟨5, 0, 0⟩, ⟨0, 5, 0⟩, ⟨0, 0, 5⟩⟩ ⟨(1/5) / m, (1/5) / m, (1/5) / m⟩ =
      ⟨1/m, 1/m, 1/m⟩ := by
    simp only [matVecMul]
    refine Vec3.ext ?_ ?_ ?_ <;> field_simp
  have hsnap : ¬|1/m| < 1 / 1000000 := by
    rw [abs_of_pos (one_div_pos.mpr hm)]
    intro hlt
    rw [div_lt_div_iff hm (by norm_num)] at hlt
    nlinarith [hmb.2]
  have hv1 : jsRound ((1/m) * 1000) = 2887 := by
    rw [show (1/m) * 1000 = 1000 / m from by ring]
    exact jsRound_div_m 1000 m 2887 hm (by push_cast; nlinarith [hmb.2])
      (by push_cast; nlinarith [hmb.1])
  have hq1 : jsRound ((1/m) / (((2887 : ℤ) : ℝ) / 1000)) = 1 := by
    rw [show (1/m) / (((2887 : ℤ) : ℝ) / 1000) = (1000 / 2887) / m from by push_cast; ring]
    exact jsRound_div_m (1000 / 2887) m 1 hm (by push_cast; nlinarith [hmb.2])
      (by push_cast; nlinarith [hmb.1])
  refine getMillerIndicesFromCamera_eval _ _ _ ⟨⟨5, 0, 0⟩, ⟨0, 5, 0⟩, ⟨0, 0, 5⟩⟩
    (1/m) (1/m) (1/m) (1/m) (1/m) (1/m) (1, 1, 1) inv_cubicM ?_ ?_ ?_ ?_ ?_
  · rw [hG, hnorm]
    exact hmul
  · exact if_neg hsnap
  · exact if_neg hsnap
  · exact if_neg hsnap
  · refine normalizeSnappedHKL_eval (1/m) (1/m) (1/m) 2887 2887 2887 2887 1 1 1
      ?_ hv1 hv1 hv1 (by norm_num) (by norm_num) hq1 hq1 hq1 (by decide)
    intro hz
    exact absurd hz.1 (one_div_pos.mpr hm).ne'

theorem resolve_cubic_210 :
    getMillerIndicesFromCamera (normalizeVector (gVector cubicRecip 2 1 0))
      cubicDirect cubicRecip = some (2, 1, 0) := by
  set m := Real.sqrt ((1 : ℝ) / 5) with hmdef
  have hmb : (4472135 / 10000000 : ℝ) < m ∧ m < (4472136 / 10000000 : ℝ) :=
    sqrt_bounds_of_sq _ _ _ (by norm_num) (by norm_num) (by norm_num) (by norm_num)
  have hm : 0 < m := lt_trans (by norm_num) hmb.1
  have hG : gVector cubicRecip 2 1 0 = ⟨2/5, 1/5, 0⟩ := by
    simp only [gVector, cubicRecip]
    refine Vec3.ext ?_ ?_ ?_ <;> norm_num
  have hnorm : normalizeVector ⟨2/5, 1/5, 0⟩ = ⟨(2/5) / m, (1/5) / m, 0 / m⟩ := by
    apply normalizeVector_eq_of_sq _ m hm
    rw [hmdef, Real.sq_sqrt (by norm_num : (0:ℝ) ≤ 1/5)]
    norm_num
  have hmul : matVecMul ⟨⟨5, 0, 0⟩, ⟨0, 5, 0⟩, ⟨0, 0, 5⟩⟩ ⟨(2/5) / m, (1/5) / m, 0 / m⟩ =
      ⟨2/m, 1/m, 0⟩ := by
    simp only [matVecMul]
    refine Vec3.ext ?_ ?_ ?_ <;> field_simp <;> ring
  have hsnap1 : ¬|1/m| < 1 / 1000000 := by
    rw [abs_of_pos (one_div_pos.mpr hm)]
    intro hlt
    rw [div_lt_div_iff hm (by norm_num)] at hlt
    nlinarith [hmb.2]
  have hsnap2 : ¬|2/m| < 1 / 1000000 := by
    rw [abs_of_pos (by positivity)]
    intro hlt
    rw [div_lt_div_iff hm (by norm_num)] at hlt
    nlinarith [hmb.2]
  have hv2 : jsRound ((2/m) * 1000) = 4472 := by
    rw [show (2/m) * 1000 = 2000 / m from by ring]
    exact jsRound_div_m 2000 m 4472 hm (by push_cast; nlinarith [hmb.2])
      (by push_cast; nlinarith [hmb.1])
  have hv1 : jsRound ((1/m) * 1000) = 2236 := by
    rw [show (1/m) * 1000 = 1000 / m from by ring]
    exact jsRound_div_m 1000 m 2236 hm (by push_cast; nlinarith [hmb.2])
      (by push_cast; nlinarith [hmb.1])
  have hv0 : jsRound ((0:ℝ) * 1000) = 0 := jsRound_eq _ 0 (by norm_num) (by norm_num)
  have hq2 : jsRound ((2/m) / (((2236 : ℤ) : ℝ) / 1000)) = 2 := by
    rw [show (2/m) / (((2236 : ℤ) : ℝ) / 1000) = (2000 / 2236) / m from by push_cast; ring]
    exact jsRound_div_m (2000 / 2236) m 2 hm (by push_cast; nlinarith [hmb.2])
      (by push_cast; nlinarith [hmb.1])
  have hq1 : jsRound ((1/m) / (((2236 : ℤ) : ℝ) / 1000)) = 1 := by
    rw [show (1/m) / (((2236 : ℤ) : ℝ) / 1000) = (1000 / 2236) / m from by push_cast; ring]
    exact jsRound_div_m (1000 / 2236) m 1 hm (by push_cast; nlinarith [hmb.2])
      (by push_cast; nlinarith [hmb.1])
  have hq0 : jsRound ((0:ℝ) / (((2236 : ℤ) : ℝ) / 1000)) = 0 := by
    rw [show (0:ℝ) / (((2236 : ℤ) : ℝ) / 1000) = 0 from by norm_num]
    exact jsRound_eq _ 0 (by norm_num) (by norm_num)
  refine getMillerIndicesFromCamera_eval _ _ _ ⟨⟨5, 0, 0⟩, ⟨0, 5, 0⟩, ⟨0, 0, 5⟩⟩
    (2/m) (1/m) 0 (2/m) (1/m) 0 (2, 1, 0) inv_cubicM ?_ ?_ ?_ ?_ ?_
  · rw [hG, hnorm]
    exact hmul
  · exact if_neg hsnap2
  · exact if_neg hsnap1
  · norm_num
  · refine normalizeSnappedHKL_eval (2/m) (1/m) 0 4472 2236 0 2236 2 1 0
      ?_ hv2 hv1 hv0 (by norm_num) (by norm_num) hq2 hq1 hq0 (by decide)
    intro hz
    exact absurd hz.1 (by positivity : (0:ℝ) < 2/m).ne'

theorem resolve_mono_100 :
    getMillerIndicesFromCamera (normalizeVector (gVector monoRecip 1 0 0))
      monoDirect monoRecip = some (1, 0, 0) := by
  have hs := sinBeta_pos
  have hsne : sinBeta ≠ 0 := hs.ne'
  have key : sinBeta * sinBeta = 1 - cosBeta ^ 2 := by linear_combination sinBeta_sq
  have h1mc : (0:ℝ) < 1 - cosBeta ^ 2 := one_sub_cosBetaSq_pos
  have htb := cosBetaSq_bounds
  set m := Real.sqrt (1 / (25 * (1 - cosBeta ^ 2))) with hmdef
  have hS0 : (0:ℝ) ≤ 1 / (25 * (1 - cosBeta ^ 2)) :=
    le_of_lt (div_pos one_pos (by linarith))
  have hmb : (2030852 / 10000000 : ℝ) < m ∧ m < (2030856 / 10000000 : ℝ) := by
    refine sqrt_bounds_of_sq _ _ _ (by norm_num) (by norm_num) ?_ ?_
    · rw [lt_div_iff (by linarith : (0:ℝ) < 25 * (1 - cosBeta ^ 2))]
      nlinarith [htb.1]
    · rw [div_lt_iff (by linarith : (0:ℝ) < 25 * (1 - cosBeta ^ 2))]
      nlinarith [htb.2]
  have hm : 0 < m := lt_trans (by norm_num) hmb.1
  have hG : gVector monoRecip 1 0 0 = ⟨1/5, 0, -cosBeta / (5 * sinBeta)⟩ := by
    simp only [gVector, monoRecip]
    refine Vec3.ext ?_ ?_ ?_ <;> norm_num
  have hnorm : normalizeVector ⟨1/5, 0, -cosBeta / (5 * sinBeta)⟩ =
      ⟨(1/5) / m, 0 / m, (-cosBeta / (5 * sinBeta)) / m⟩ := by
    apply normalizeVector_eq_of_sq _ m hm
    rw [hmdef, Real.sq_sqrt hS0]
    rw [show (1:ℝ) - cosBeta ^ 2 = sinBeta * sinBeta from key.symm]
    field_simp
    linear_combination (625 * sinBeta ^ 2) * key
  have hmul : matVecMul ⟨⟨5, 0, 0⟩, ⟨0, 6, 0⟩, ⟨7 * cosBeta, 0, 7 * sinBeta⟩⟩
      ⟨(1/5) / m, 0 / m, (-cosBeta / (5 * sinBeta)) / m⟩ = ⟨1/m, 0, 0⟩ := by
    simp only [matVecMul]
    refine Vec3.ext ?_ ?_ ?_ <;> field_simp <;> ring
  have hsnap : ¬|1/m| < 1 / 1000000 := by
    rw [abs_of_pos (one_div_pos.mpr hm)]
    intro hlt
    rw [div_lt_div_iff hm (by norm_num)] at hlt
    nlinarith [hmb.2]
  have hv1 : jsRound ((1/m) * 1000) = 4924 := by
    rw [show (1/m) * 1000 = 1000 / m from by ring]
    exact jsRound_div_m 1000 m 4924 hm (by push_cast; nlinarith [hmb.2])
      (by push_cast; nlinarith [hmb.1])
  have hv0 : jsRound ((0:ℝ) * 1000) = 0 := jsRound_eq _ 0 (by norm_num) (by norm_num)
  have hq1 : jsRound ((1/m) / (((4924 : ℤ) : ℝ) / 1000)) = 1 := by
    rw [show (1/m) / (((4924 : ℤ) : ℝ) / 1000) = (1000 / 4924) / m from by push_cast; ring]
    exact jsRound_div_m (1000 / 4924) m 1 hm (by push_cast; nlinarith [hmb.2])
      (by push_cast; nlinarith [hmb.1])
  have hq0 : jsRound ((0:ℝ) / (((4924 : ℤ) : ℝ) / 1000)) = 0 := by
    rw [show (0:ℝ) / (((4924 : ℤ) : ℝ) / 1000) = 0 from by norm_num]
    exact jsRound_eq _ 0 (by norm_num) (by norm_num)
  refine getMillerIndicesFromCamera_eval _ _ _ ⟨⟨5, 0, 0⟩, ⟨0, 6, 0⟩, ⟨7 * cosBeta, 0, 7 * sinBeta⟩⟩
    (1/m) 0 0 (1/m) 0 0 (1, 0, 0) inv_monoM ?_ ?_ ?_ ?_ ?_
  · rw [hG, hnorm]
    exact hmul
  · exact if_neg hsnap
  · norm_num
  · norm_num
  · refine normalizeSnappedHKL_eval (1/m) 0 0 4924 0 0 4924 1 0 0
      ?_ hv1 hv0 hv0 (by norm_num) (by norm_num) hq1 hq0 hq0 (by decide)
    intro hz
    exact absurd hz.1 (one_div_pos.mpr hm).ne'

theorem resolve_mono_011 :
    getMillerIndicesFromCamera (normalizeVector (gVector monoRecip 0 1 1))
      monoDirect monoRecip = some (0, 1, 1) := by
  have hs := sinBeta_pos
  have hsne : sinBeta ≠ 0 := hs.ne'
  have key : sinBeta * sinBeta = 1 - cosBeta ^ 2 := by linear_combination sinBeta_sq
  have h1mc : (0:ℝ) < 1 - cosBeta ^ 2 := one_sub_cosBetaSq_pos
  have htb := cosBetaSq_bounds
  set m := Real.sqrt (1/36 + 1 / (49 * (1 - cosBeta ^ 2))) with hmdef
  have hfpos : (0:ℝ) < 1 / (49 * (1 - cosBeta ^ 2)) := div_pos one_pos (by linarith)
  have hS0 : (0:ℝ) ≤ 1/36 + 1 / (49 * (1 - cosBeta ^ 2)) := by linarith
  have hmb : (2209535 / 10000000 : ℝ) < m ∧ m < (2209538 / 10000000 : ℝ) := by
    refine sqrt_bounds_of_sq _ _ _ (by norm_num) (by norm_num) ?_ ?_
    · have hq : (2209535 / 10000000 : ℝ) ^ 2 - 1/36 < 1 / (49 * (1 - cosBeta ^ 2)) := by
        rw [lt_div_iff (by linarith : (0:ℝ) < 49 * (1 - cosBeta ^ 2))]
        nlinarith [htb.1]
      linarith
    · have hq : 1 / (49 * (1 - cosBeta ^ 2)) < (2209538 / 10000000 : ℝ) ^ 2 - 1/36 := by
        rw [div_lt_iff (by linarith : (0:ℝ) < 49 * (1 - cosBeta ^ 2))]
        nlinarith [htb.2]
      linarith
  have hm : 0 < m := lt_trans (by norm_num) hmb.1
  have hG : gVector monoRecip 0 1 1 = ⟨0, 1/6, 1 / (7 * sinBeta)⟩ := by
    simp only [gVector, monoRecip]
    refine Vec3.ext ?_ ?_ ?_ <;> norm_num
  have hnorm : normalizeVector ⟨0, 1/6, 1 / (7 * sinBeta)⟩ =
      ⟨0 / m, (1/6) / m, (1 / (7 * sinBeta)) / m⟩ := by
    apply normalizeVector_eq_of_sq _ m hm
    rw [hmdef, Real.sq_sqrt hS0]
    rw [show (1:ℝ) - cosBeta ^ 2 = sinBeta * sinBeta from key.symm]
    field_simp
    ring
  have hmul : matVecMul ⟨⟨5, 0, 0⟩, ⟨0, 6, 0⟩, ⟨7 * cosBeta, 0, 7 * sinBeta⟩⟩
      ⟨0 / m, (1/6) / m, (1 / (7 * sinBeta)) / m⟩ = ⟨0, 1/m, 1/m⟩ := by
    simp only [matVecMul]
    refine Vec3.ext ?_ ?_ ?_ <;> field_simp
  have hsnap : ¬|1/m| < 1 / 1000000 := by
    rw [abs_of_pos (one_div_pos.mpr hm)]
    intro hlt
    rw [div_lt_div_iff hm (by norm_num)] at hlt
    nlinarith [hmb.2]
  have hv1 : jsRound ((1/m) * 1000) = 4526 := by
    rw [show (1/m) * 1000 = 1000 / m from by ring]
    exact jsRound_div_m 1000 m 4526 hm (by push_cast; nlinarith [hmb.2])
      (by push_cast; nlinarith [hmb.1])
  have hv0 : jsRound ((0:ℝ) * 1000) = 0 := jsRound_eq _ 0 (by norm_num) (by norm_num)
  have hq1 : jsRound ((1/m) / (((4526 : ℤ) : ℝ) / 1000)) = 1 := by
    rw [show (1/m) / (((4526 : ℤ) : ℝ) / 1000) = (1000 / 4526) / m from by push_cast; ring]
    exact jsRound_div_m (1000 / 4526) m 1 hm (by push_cast; nlinarith [hmb.2])
      (by push_cast; nlinarith [hmb.1])
  have hq0 : jsRound ((0:ℝ) / (((4526 : ℤ) : ℝ) / 1000)) = 0 := by
    rw [show (0:ℝ) / (((4526 : ℤ) : ℝ) / 1000) = 0 from by norm_num]
    exact jsRound_eq _ 0 (by norm_num) (by norm_num)
  refine getMillerIndicesFromCamera_eval _ _ _ ⟨⟨5, 0, 0⟩, ⟨0, 6, 0⟩, ⟨7 * cosBeta, 0, 7 * sinBeta⟩⟩
    0 (1/m) (1/m) 0 (1/m) (1/m) (0, 1, 1) inv_monoM ?_ ?_ ?_ ?_ ?_
  · rw [hG, hnorm]
    exact hmul
  · norm_num
  · exact if_neg hsnap
  · exact if_neg hsnap
  · refine normalizeSnappedHKL_eval 0 (1/m) (1/m) 0 4526 4526 4526 0 1 1
      ?_ hv0 hv1 hv1 (by norm_num) (by norm_num) hq0 hq1 hq1 (by decide)
    intro hz
    exact absurd hz.2.1 (one_div_pos.mpr hm).ne'

theorem resolve_mono_111 :
    getMillerIndicesFromCamera (normalizeVector (gVector monoRecip 1 1 1))
      monoDirect monoRecip = some (1, 1, 1) := by
  have hs := sinBeta_pos
  have hsne : sinBeta ≠ 0 := hs.ne'
  have key : sinBeta * sinBeta = 1 - cosBeta ^ 2 := by linear_combination sinBeta_sq
  have h1mc : (0:ℝ) < 1 - cosBeta ^ 2 := one_sub_cosBetaSq_pos
  have htb := cosBetaSq_bounds
  have hcb := cosBeta_bounds
  set m := Real.sqrt (1/25 + 1/36 +
    (25 - 70 * cosBeta + 49 * cosBeta ^ 2) / (1225 * (1 - cosBeta ^ 2))) with hmdef
  have hNpos : (0:ℝ) < 25 - 70 * cosBeta + 49 * cosBeta ^ 2 := by
    nlinarith [cosBeta_neg, sq_nonneg cosBeta]
  have hfpos : (0:ℝ) <
      (25 - 70 * cosBeta + 49 * cosBeta ^ 2) / (1225 * (1 - cosBeta ^ 2)) :=
    div_pos hNpos (by linarith)
  have hS0 : (0:ℝ) ≤ 1/25 + 1/36 +
      (25 - 70 * cosBeta + 49 * cosBeta ^ 2) / (1225 * (1 - cosBeta ^ 2)) := by linarith
  have hmb : (3166944 / 10000000 : ℝ) < m ∧ m < (3166947 / 10000000 : ℝ) := by
    refine sqrt_bounds_of_sq _ _ _ (by norm_num) (by norm_num) ?_ ?_
    · have hq : (3166944 / 10000000 : ℝ) ^ 2 - 1/25 - 1/36 <
          (25 - 70 * cosBeta + 49 * cosBeta ^ 2) / (1225 * (1 - cosBeta ^ 2)) := by
        rw [lt_div_iff (by linarith : (0:ℝ) < 1225 * (1 - cosBeta ^ 2))]
        nlinarith [htb.1, htb.2, hcb.1, hcb.2]
      linarith
    · have hq : (25 - 70 * cosBeta + 49 * cosBeta ^ 2) / (1225 * (1 - cosBeta ^ 2)) <
          (3166947 / 10000000 : ℝ) ^ 2 - 1/25 - 1/36 := by
        rw [div_lt_iff (by linarith : (0:ℝ) < 1225 * (1 - cosBeta ^ 2))]
        nlinarith [htb.1, htb.2, hcb.1, hcb.2]
      linarith
  have hm : 0 < m := lt_trans (by norm_num) hmb.1
  have hG : gVector monoRecip 1 1 1 =
      ⟨1/5, 1/6, -cosBeta / (5 * sinBeta) + 1 / (7 * sinBeta)⟩ := by
    simp only [gVector, monoRecip]
    refine Vec3.ext ?_ ?_ ?_ <;> norm_num
  have hnorm : normalizeVector ⟨1/5, 1/6, -cosBeta / (5 * sinBeta) + 1 / (7 * sinBeta)⟩ =
      ⟨(1/5) / m, (1/6) / m, (-cosBeta / (5 * sinBeta) + 1 / (7 * sinBeta)) / m⟩ := by
    apply normalizeVector_eq_of_sq _ m hm
    rw [hmdef, Real.sq_sqrt hS0]
    rw [show (1:ℝ) - cosBeta ^ 2 = sinBeta * sinBeta from key.symm]
    field_simp
    ring
  have hmul : matVecMul ⟨⟨5, 0, 0⟩, ⟨0, 6, 0⟩, ⟨7 * cosBeta, 0, 7 * sinBeta⟩⟩
      ⟨(1/5) / m, (1/6) / m, (-cosBeta / (5 * sinBeta) + 1 / (7 * sinBeta)) / m⟩ =
      ⟨1/m, 1/m, 1/m⟩ := by
    simp only [matVecMul]
    refine Vec3.ext ?_ ?_ ?_ <;> field_simp <;> ring
  have hsnap : ¬|1/m| < 1 / 1000000 := by
    rw [abs_of_pos (one_div_pos.mpr hm)]
    intro hlt
    rw [div_lt_div_iff hm (by norm_num)] at hlt
    nlinarith [hmb.2]
  have hv1 : jsRound ((1/m) * 1000) = 3158 := by
    rw [show (1/m) * 1000 = 1000 / m from by ring]
    exact jsRound_div_m 1000 m 3158 hm (by push_cast; nlinarith [hmb.2])
      (by push_cast; nlinarith [hmb.1])
  have hq1 : jsRound ((1/m) / (((3158 : ℤ) : ℝ) / 1000)) = 1 := by
    rw [show (1/m) / (((3158 : ℤ) : ℝ) / 1000) = (1000 / 3158) / m from by push_cast; ring]
    exact jsRound_div_m (1000 / 3158) m 1 hm (by push_cast; nlinarith [hmb.2])
      (by push_cast; nlinarith [hmb.1])
  refine getMillerIndicesFromCamera_eval _ _ _ ⟨⟨5, 0, 0⟩, ⟨0, 6, 0⟩, ⟨7 * cosBeta, 0, 7 * sinBeta⟩⟩
    (1/m) (1/m) (1/m) (1/m) (1/m) (1/m) (1, 1, 1) inv_monoM ?_ ?_ ?_ ?_ ?_
  · rw [hG, hnorm]
    exact hmul
  · exact if_neg hsnap
  · exact if_neg hsnap
  · exact if_neg hsnap
  · refine normalizeSnappedHKL_eval (1/m) (1/m) (1/m) 3158 3158 3158 3158 1 1 1
      ?_ hv1 hv1 hv1 (by norm_num) (by norm_num) hq1 hq1 hq1 (by decide)
    intro hz
    exact absurd hz.1 (one_div_pos.mpr hm).ne'

theorem resolve_mono_210 :
    getMillerIndicesFromCamera (normalizeVector (gVector monoRecip 2 1 0))
      monoDirect monoRecip = some (4555, 2278, 0) := by
  have hs := sinBeta_pos
  have hsne : sinBeta ≠ 0 := hs.ne'
  have key : sinBeta * sinBeta = 1 - cosBeta ^ 2 := by linear_combination sinBeta_sq
  have h1mc : (0:ℝ) < 1 - cosBeta ^ 2 := one_sub_cosBetaSq_pos
  have htb := cosBetaSq_bounds
  set m := Real.sqrt (4/25 + 1/36 +
    4 * cosBeta ^ 2 / (25 * (1 - cosBeta ^ 2))) with hmdef
  have hfpos : (0:ℝ) ≤ 4 * cosBeta ^ 2 / (25 * (1 - cosBeta ^ 2)) :=
    div_nonneg (by nlinarith [sq_nonneg cosBeta]) (by linarith)
  have hS0 : (0:ℝ) ≤ 4/25 + 1/36 + 4 * cosBeta ^ 2 / (25 * (1 - cosBeta ^ 2)) := by
    linarith
  have hmb : (4390345 / 10000000 : ℝ) < m ∧ m < (4390369 / 10000000 : ℝ) := by
    refine sqrt_bounds_of_sq _ _ _ (by norm_num) (by norm_num) ?_ ?_
    · have hq : (4390345 / 10000000 : ℝ) ^ 2 - 4/25 - 1/36 <
          4 * cosBeta ^ 2 / (25 * (1 - cosBeta ^ 2)) := by
        rw [lt_div_iff (by linarith : (0:ℝ) < 25 * (1 - cosBeta ^ 2))]
        nlinarith [htb.1, htb.2]
      linarith
    · have hq : 4 * cosBeta ^ 2 / (25 * (1 - cosBeta ^ 2)) <
          (4390369 / 10000000 : ℝ) ^ 2 - 4/25 - 1/36 := by
        rw [div_lt_iff (by linarith : (0:ℝ) < 25 * (1 - cosBeta ^ 2))]
        nlinarith [htb.1, htb.2]
      linarith
  have hm : 0 < m := lt_trans (by norm_num) hmb.1
  have hG : gVector monoRecip 2 1 0 =
      ⟨2/5, 1/6, 2 * (-cosBeta / (5 * sinBeta))⟩ := by
    simp only [gVector, monoRecip]
    refine Vec3.ext ?_ ?_ ?_ <;> norm_num
  have hnorm : normalizeVector ⟨2/5, 1/6, 2 * (-cosBeta / (5 * sinBeta))⟩ =
      ⟨(2/5) / m, (1/6) / m, (2 * (-cosBeta / (5 * sinBeta))) / m⟩ := by
    apply normalizeVector_eq_of_sq _ m hm
    rw [hmdef, Real.sq_sqrt hS0]
    rw [show (1:ℝ) - cosBeta ^ 2 = sinBeta * sinBeta from key.symm]
    field_simp
    ring
  have hmul : matVecMul ⟨⟨5, 0, 0⟩, ⟨0, 6, 0⟩, ⟨7 * cosBeta, 0, 7 * sinBeta⟩⟩
      ⟨(2/5) / m, (1/6) / m, (2 * (-cosBeta / (5 * sinBeta))) / m⟩ =
      ⟨2/m, 1/m, 0⟩ := by
    simp only [matVecMul]
    refine Vec3.ext ?_ ?_ ?_ <;> field_simp <;> ring
  have hsnap1 : ¬|1/m| < 1 / 1000000 := by
    rw [abs_of_pos (one_div_pos.mpr hm)]
    intro hlt
    rw [div_lt_div_iff hm (by norm_num)] at hlt
    nlinarith [hmb.2]
  have hsnap2 : ¬|2/m| < 1 / 1000000 := by
    rw [abs_of_pos (by positivity)]
    intro hlt
    rw [div_lt_div_iff hm (by norm_num)] at hlt
    nlinarith [hmb.2]
  have hv2 : jsRound ((2/m) * 1000) = 4555 := by
    rw [show (2/m) * 1000 = 2000 / m from by ring]
    exact jsRound_div_m 2000 m 4555 hm (by push_cast; nlinarith [hmb.2])
      (by push_cast; nlinarith [hmb.1])
  have hv1 : jsRound ((1/m) * 1000) = 2278 := by
    rw [show (1/m) * 1000 = 1000 / m from by ring]
    exact jsRound_div_m 1000 m 2278 hm (by push_cast; nlinarith [hmb.2])
      (by push_cast; nlinarith [hmb.1])
  have hv0 : jsRound ((0:ℝ) * 1000) = 0 := jsRound_eq _ 0 (by norm_num) (by norm_num)
  have hq2 : jsRound ((2/m) / (((1 : ℤ) : ℝ) / 1000)) = 4555 := by
    rw [show (2/m) / (((1 : ℤ) : ℝ) / 1000) = 2000 / m from by push_cast; ring]
    exact jsRound_div_m 2000 m 4555 hm (by push_cast; nlinarith [hmb.2])
      (by push_cast; nlinarith [hmb.1])
  have hq1 : jsRound ((1/m) / (((1 : ℤ) : ℝ) / 1000)) = 2278 := by
    rw [show (1/m) / (((1 : ℤ) : ℝ) / 1000) = 1000 / m from by push_cast; ring]
    exact jsRound_div_m 1000 m 2278 hm (by push_cast; nlinarith [hmb.2])
      (by push_cast; nlinarith [hmb.1])
  have hq0 : jsRound ((0:ℝ) / (((1 : ℤ) : ℝ) / 1000)) = 0 := by
    rw [show (0:ℝ) / (((1 : ℤ) : ℝ) / 1000) = 0 from by norm_num]
    exact jsRound_eq _ 0 (by norm_num) (by norm_num)
  refine getMillerIndicesFromCamera_eval _ _ _ ⟨⟨5, 0, 0⟩, ⟨0, 6, 0⟩, ⟨7 * cosBeta, 0, 7 * sinBeta⟩⟩
    (2/m) (1/m) 0 (2/m) (1/m) 0 (4555, 2278, 0) inv_monoM ?_ ?_ ?_ ?_ ?_
  · rw [hG, hnorm]
    exact hmul
  · exact if_neg hsnap2
  · exact if_neg hsnap1
  · norm_num
  · refine normalizeSnappedHKL_eval (2/m) (1/m) 0 4555 2278 0 1 4555 2278 0
      ?_ hv2 hv1 hv0 (by norm_num) (by norm_num) hq2 hq1 hq0 (by decide)
    intro hz
    exact absurd hz.1 (by positivity : (0:ℝ) < 2/m).ne'

/-- C1: amended resolver/projector inverse law. Building the direct lattice
vectors, the reciprocal vectors, and feeding the normalized direction of
G = h aStar + k bStar + l cStar back to `getMillerIndicesFromCamera`
recovers (h,k,l) for (1,0,0), (0,1,1), (1,1,1) on both the cubic
(a=b=c=5, angles 90) and the monoclinic (5,6,7,90,100,90) cell, and for
(2,1,0) on the cubic cell; but on the monoclinic cell the direction of
G(2,1,0) resolves to (4555,2278,0), not (2,1,0): the claimed inverse law
fails there, because rounding h,k,l scaled by 1000 before the GCD
reduction destroys the exact 2:1 ratio. -/
theorem C1_resolver_inverse_law_amended :
    getDirectLatticeVectors cubicCell = cubicDirect ∧
    getReciprocalLatticeVectors cubicDirect = some cubicRecip ∧
    getDirectLatticeVectors monoCell = monoDirect ∧
    getReciprocalLatticeVectors monoDirect = some monoRecip ∧
    getMillerIndicesFromCamera (normalizeVector (gVector cubicRecip 1 0 0))
      cubicDirect cubicRecip = some (1, 0, 0) ∧
    getMillerIndicesFromCamera (normalizeVector (gVector cubicRecip 0 1 1))
      cubicDirect cubicRecip = some (0, 1, 1) ∧
    getMillerIndicesFromCamera (normalizeVector (gVector cubicRecip 1 1 1))
      cubicDirect cubicRecip = some (1, 1, 1) ∧
    getMillerIndicesFromCamera (normalizeVector (gVector cubicRecip 2 1 0))
      cubicDirect cubicRecip = some (2, 1, 0) ∧
    getMillerIndicesFromCamera (normalizeVector (gVector monoRecip 1 0 0))
      monoDirect monoRecip = some (1, 0, 0) ∧
    getMillerIndicesFromCamera (normalizeVector (gVector monoRecip 0 1 1))
      monoDirect monoRecip = some (0, 1, 1) ∧
    getMillerIndicesFromCamera (normalizeVector (gVector monoRecip 1 1 1))
      monoDirect monoRecip = some (1, 1, 1) ∧
    getMillerIndicesFromCamera (normalizeVector (gVector monoRecip 2 1 0))
      monoDirect monoRecip = some (4555, 2278, 0) ∧
    ((4555 : ℤ), (2278 : ℤ), (0 : ℤ)) ≠ ((2 : ℤ), (1 : ℤ), (0 : ℤ)) :=
  ⟨directLattice_cubic, recip_cubic, directLattice_mono, recip_mono,
   resolve_cubic_100, resolve_cubic_011, resolve_cubic_111, resolve_cubic_210,
   resolve_mono_100, resolve_mono_011, resolve_mono_111, resolve_mono_210,
   by decide⟩

/-- C1 counterexample: on the monoclinic cell (5,6,7,90,100,90), the
normalized direction of G(2,1,0) is resolved by `getMillerIndicesFromCamera`
to (4555,2278,0) rather than (2,1,0) (which is already in canonical sign
form), refuting the claimed inverse law for that case. -/
theorem C1_counterexample :
    getDirectLatticeVectors monoCell = monoDirect ∧
    getReciprocalLatticeVectors monoDirect = some monoRecip ∧
    getMillerIndicesFromCamera (normalizeVector (gVector monoRecip 2 1 0))
      monoDirect monoRecip = some (4555, 2278, 0) ∧
    some ((4555 : ℤ), (2278 : ℤ), (0 : ℤ)) ≠ some ((2 : ℤ), (1 : ℤ), (0 : ℤ)) :=
  ⟨directLattice_mono, recip_mono, resolve_mono_210, by decide⟩

theorem jsModOne_bounds (x : ℝ) : -1 < jsModOne x ∧ jsModOne x < 1 := by
  unfold jsModOne jsTrunc
  split
  · constructor <;> push_cast <;>
      [linarith [Int.floor_le x]; linarith [Int.lt_floor_add_one x]]
  · constructor <;> push_cast <;>
      [linarith [Int.ceil_lt_add_one x]; linarith [Int.le_ceil x]]

theorem jsModOne_nonneg_of (x : ℝ) (hx : 0 ≤ x) : 0 ≤ jsModOne x ∧ jsModOne x < 1 := by
  unfold jsModOne jsTrunc
  rw [if_pos hx]
  constructor <;> push_cast <;>
    [linarith [Int.floor_le x]; linarith [Int.lt_floor_add_one x]]

theorem wrap_mem (x : ℝ) : 0 ≤ wrap x ∧ wrap x < 1 := by
  unfold wrap
  exact jsModOne_nonneg_of _ (by linarith [(jsModOne_bounds x).1])

theorem processAtomLine_coords (evalOp : List Char → ℝ × ℝ × ℝ → Option ℝ)
    (jsNumber : List Char → Option ℝ) (elementType : List Char → String)
    (symOps : List (List Char)) (xIdx yIdx zIdx : ℕ) (labelIdx : Option ℕ)
    (line : List Char) (p : AtomSite)
    (hp : p ∈ processAtomLine evalOp jsNumber elementType symOps xIdx yIdx zIdx labelIdx line) :
    (0 ≤ p.x ∧ p.x < 1) ∧ (0 ≤ p.y ∧ p.y < 1) ∧ (0 ≤ p.z ∧ p.z < 1) := by
  simp only [processAtomLine] at hp
  split at hp
  · split at hp
    · rw [List.mem_filterMap] at hp
      obtain ⟨op, hop, hf⟩ := hp
      split at hf
      · split at hf
        · cases hf
          exact ⟨wrap_mem _, wrap_mem _, wrap_mem _⟩
        · cases hf
      · cases hf
    · simp at hp
  · simp at hp

/-- C3: every atom position emitted by `parseCifInfo` has each coordinate
in the half-open interval [0,1), for every input file and every symmetry
operation whose expression evaluation succeeds with a real number,
because every emitted coordinate passes through the wrap
`(v % 1 + 1) % 1`. -/
theorem C3_wrap_invariant (evalOp : List Char → ℝ × ℝ × ℝ → Option ℝ)
    (jsNumber : List Char → Option ℝ) (elementType : List Char → String)
    (cifText : List Char) (d : ParsedCif)
    (hd : parseCifInfo evalOp jsNumber elementType cifText = some d) :
    ∀ p ∈ d.atomPositions, (0 ≤ p.x ∧ p.x < 1) ∧ (0 ≤ p.y ∧ p.y < 1) ∧ (0 ≤ p.z ∧ p.z < 1) := by
  intro p hp
  simp only [parseCifInfo] at hd
  split at hd
  · cases hd
  · split at hd
    · cases hd
    · split at hd
      · split at hd
        · cases hd
        · cases hd
          rw [List.mem_flatMap] at hp
          obtain ⟨line, _, hpl⟩ := hp
          exact processAtomLine_coords _ _ _ _ _ _ _ _ _ _ hpl
      · cases hd

theorem C3_wrap_invariant_witness :
    parseCifInfo evalOpW jsNumberW0 elementTypeW cifTextW = some parsedW ∧
    ∀ p ∈ parsedW.atomPositions,
      (0 ≤ p.x ∧ p.x < 1) ∧ (0 ≤ p.y ∧ p.y < 1) ∧ (0 ≤ p.z ∧ p.z < 1) :=
  ⟨rfl, C3_wrap_invariant evalOpW jsNumberW0 elementTypeW cifTextW parsedW rfl⟩

/-- C6: `parseCifInfo` returns `none` exactly when the atom-site loop and
its data rows cannot be located, or the fractional-coordinate columns are
missing from the located headers, or zero data rows remain after
filtering; and every successfully parsed record carries the raw symmetry
operations, defaulting to the identity operation `x,y,z` when zero were
found — which is never fatal. -/
theorem C6_parse_fatal_conditions (evalOp : List Char → ℝ × ℝ × ℝ → Option ℝ)
    (jsNumber : List Char → Option ℝ) (elementType : List Char → String)
    (cifText : List Char) :
    (parseCifInfo evalOp jsNumber elementType cifText = none ↔
      atomHeaderAndRows (cifLinesOf cifText) = none ∨
      ∃ labels rows, atomHeaderAndRows (cifLinesOf cifText) = some (labels, rows) ∧
        (idxOf? (("fract_x").data) labels = none ∨ idxOf? (("fract_y").data) labels = none ∨
         idxOf? (("fract_z").data) labels = none ∨ rows = [])) ∧
    (∀ d, parseCifInfo evalOp jsNumber elementType cifText = some d →
      (parseSymOpsRaw (cifLinesOf cifText) = [] → d.symmetryOperations = [xyzOp]) ∧
      (parseSymOpsRaw (cifLinesOf cifText) ≠ [] →
        d.symmetryOperations = parseSymOpsRaw (cifLinesOf cifText))) := by
  simp only [parseCifInfo, atomHeaderAndRows]
  cases hfind : findAtomSiteBlock (cifLinesOf cifText) with
  | none => simp [hfind]
  | some block =>
    cases hcoll : collectLabels [] block with
    | none => simp [hfind, hcoll]
    | some lr =>
      obtain ⟨labels, restLines⟩ := lr
      cases hx : idxOf? (("fract_x").data) labels with
      | none =>
        simp [hfind, hcoll, hx]
        exact ⟨labels, restLines.filter isDataRow, ⟨rfl, rfl⟩, Or.inl hx⟩
      | some xIdx =>
        cases hy : idxOf? (("fract_y").data) labels with
        | none =>
          simp [hfind, hcoll, hx, hy]
          exact ⟨labels, restLines.filter isDataRow, ⟨rfl, rfl⟩, Or.inr (Or.inl hy)⟩
        | some yIdx =>
          cases hz : idxOf? (("fract_z").data) labels with
          | none =>
            simp [hfind, hcoll, hx, hy, hz]
            exact ⟨labels, restLines.filter isDataRow, ⟨rfl, rfl⟩, Or.inr (Or.inr (Or.inl hz))⟩
          | some zIdx =>
            simp only [hfind, hcoll, hx, hy, hz]
            by_cases hrows : restLines.filter isDataRow = []
            · simp [hrows, List.isEmpty_iff]
              exact ⟨labels, [], ⟨rfl, rfl⟩, Or.inr (Or.inr (Or.inr rfl))⟩
            · rw [if_neg (by simpa [List.isEmpty_iff] using hrows)]
              constructor
              · simp [hrows]
                refine ⟨fun hcon => ?_, fun hcon => ?_, fun hcon => ?_⟩
                · rw [show idxOf? (("fract_x").data) labels = none from hcon] at hx
                  cases hx
                · rw [show idxOf? (("fract_y").data) labels = none from hcon] at hy
                  cases hy
                · rw [show idxOf? (("fract_z").data) labels = none from hcon] at hz
                  cases hz
              · intro d hd
                cases hd
                by_cases hsym : parseSymOpsRaw (cifLinesOf cifText) = []
                · simp [hsym, List.isEmpty_iff]
                · simp [hsym, List.isEmpty_iff]

theorem C6_parse_fatal_conditions_witness :
    (parseCifInfo evalOpW jsNumberW0 elementTypeW cifTextW = none ↔
      atomHeaderAndRows (cifLinesOf cifTextW) = none ∨
      ∃ labels rows, atomHeaderAndRows (cifLinesOf cifTextW) = some (labels, rows) ∧
        (idxOf? (("fract_x").data) labels = none ∨ idxOf? (("fract_y").data) labels = none ∨
         idxOf? (("fract_z").data) labels = none ∨ rows = [])) ∧
    (∀ d, parseCifInfo evalOpW jsNumberW0 elementTypeW cifTextW = some d →
      (parseSymOpsRaw (cifLinesOf cifTextW) = [] → d.symmetryOperations = [xyzOp]) ∧
      (parseSymOpsRaw (cifLinesOf cifTextW) ≠ [] →
        d.symmetryOperations = parseSymOpsRaw (cifLinesOf cifTextW))) :=
  C6_parse_fatal_conditions evalOpW jsNumberW0 elementTypeW cifTextW

theorem unDigits_natDigitsAux : ∀ (fuel n : ℕ), n ≤ fuel → unDigits (natDigitsAux fuel n) = n := by
  intro fuel
  induction fuel with
  | zero =>
    intro n h
    interval_cases n
    simp [natDigitsAux, unDigits]
  | succ f ih =>
    intro n h
    by_cases hn : n = 0
    · simp [natDigitsAux, hn, unDigits]
    · simp only [natDigitsAux, if_neg hn, unDigits]
      rw [ih (n / 10) (by omega)]
      omega

theorem unDigits_natDigits (n : ℕ) : unDigits (natDigits n) = n :=
  unDigits_natDigitsAux n n le_rfl

theorem natDigitsAux_lt10 : ∀ (fuel n : ℕ), ∀ d ∈ natDigitsAux fuel n, d < 10 := by
  intro fuel
  induction fuel with
  | zero => intro n d hd; simp [natDigitsAux] at hd
  | succ f ih =>
    intro n d hd
    by_cases hn : n = 0
    · simp [natDigitsAux, hn] at hd
    · simp only [natDigitsAux, if_neg hn, List.mem_cons] at hd
      rcases hd with hd | hd
      · omega
      · exact ih (n / 10) d hd

theorem digitChar_inj (d e : ℕ) (hd : d < 10) (he : e < 10)
    (h : digitChar d = digitChar e) : d = e := by
  interval_cases d <;> interval_cases e <;> first | rfl | exact absurd h (by decide)

theorem digitChar_ne_comma (d : ℕ) (hd : d < 10) : digitChar d ≠ ',' := by
  interval_cases d <;> decide

theorem digitChar_ne_minus (d : ℕ) (hd : d < 10) : digitChar d ≠ Char.ofNat 45 := by
  interval_cases d <;> decide

theorem natStr_all_digits (n : ℕ) : ∀ c ∈ natStr n, ∃ d, d < 10 ∧ c = digitChar d := by
  intro c hc
  unfold natStr at hc
  split at hc
  · simp at hc
    exact ⟨0, by omega, hc⟩
  · simp only [List.mem_reverse, List.mem_map] at hc
    obtain ⟨d, hd, rfl⟩ := hc
    exact ⟨d, natDigitsAux_lt10 n n d hd, rfl⟩

theorem natStr_ne_nil (n : ℕ) : natStr n ≠ [] := by
  unfold natStr
  split
  · simp
  · rename_i hn
    cases n with
    | zero => exact absurd rfl hn
    | succ m =>
      simp only [natDigits, natDigitsAux, if_neg (Nat.succ_ne_zero m)]
      simp

theorem map_digitChar_inj : ∀ (l1 l2 : List ℕ), (∀ d ∈ l1, d < 10) → (∀ d ∈ l2, d < 10) →
    l1.map digitChar = l2.map digitChar → l1 = l2 := by
  intro l1
  induction l1 with
  | nil => intro l2 _ _ h; cases l2 <;> simp_all
  | cons d ds ih =>
    intro l2 h1 h2 h
    cases l2 with
    | nil => simp at h
    | cons e es =>
      simp only [List.map_cons, List.cons.injEq] at h
      have hde : d = e := digitChar_inj d e (h1 d (by simp)) (h2 e (by simp)) h.1
      have := ih es (fun x hx => h1 x (by simp [hx])) (fun x hx => h2 x (by simp [hx])) h.2
      rw [hde, this]

theorem natStr_inj (m n : ℕ) (h : natStr m = natStr n) : m = n := by
  by_cases hm : m = 0 <;> by_cases hn : n = 0
  · omega
  · exfalso
    rw [natStr, if_pos hm, natStr, if_neg hn] at h
    have hrev := congrArg List.reverse h
    simp only [List.reverse_reverse, List.reverse_cons, List.reverse_nil, List.nil_append] at hrev
    cases hnd : natDigits n with
    | nil => rw [hnd] at hrev; simp at hrev
    | cons e es =>
      rw [hnd] at hrev
      cases es with
      | nil =>
        simp only [List.map_cons, List.map_nil, List.cons.injEq] at hrev
        have he : e < 10 := natDigitsAux_lt10 n n e (by rw [show natDigitsAux n n = natDigits n from rfl, hnd]; simp)
        have he0 : (0 : ℕ) = e := digitChar_inj 0 e (by omega) he hrev.1
        have := unDigits_natDigits n
        rw [hnd, ← he0] at this
        simp [unDigits] at this
        exact hn this.symm
      | cons f fs => simp at hrev
  · exfalso
    rw [natStr, if_neg hm, natStr, if_pos hn] at h
    have hrev := congrArg List.reverse h
    simp only [List.reverse_reverse, List.reverse_cons, List.reverse_nil, List.nil_append] at hrev
    cases hmd : natDigits m with
    | nil => rw [hmd] at hrev; simp at hrev
    | cons e es =>
      rw [hmd] at hrev
      cases es with
      | nil =>
        simp only [List.map_cons, List.map_nil, List.cons.injEq] at hrev
        have he : e < 10 := natDigitsAux_lt10 m m e (by rw [show natDigitsAux m m = natDigits m from rfl, hmd]; simp)
        have he0 : e = 0 := digitChar_inj e 0 he (by omega) hrev.1
        have := unDigits_natDigits m
        rw [hmd, he0] at this
        simp [unDigits] at this
        exact hm this.symm
      | cons f fs => simp at hrev
  · rw [natStr, if_neg hm, natStr, if_neg hn] at h
    have hrev := congrArg List.reverse h
    simp only [List.reverse_reverse] at hrev
    have := map_digitChar_inj (natDigits m) (natDigits n)
      (natDigitsAux_lt10 m m) (natDigitsAux_lt10 n n) hrev
    have h2 := unDigits_natDigits m
    rw [this, unDigits_natDigits n] at h2
    exact h2.symm

theorem intStr_no_comma (i : ℤ) : ∀ c ∈ intStr i, c ≠ ',' := by
  intro c hc
  unfold intStr at hc
  split at hc
  · rcases List.mem_cons.mp hc with rfl | hc
    · decide
    · obtain ⟨d, hd, rfl⟩ := natStr_all_digits _ c hc
      exact digitChar_ne_comma d hd
  · obtain ⟨d, hd, rfl⟩ := natStr_all_digits _ c hc
    exact digitChar_ne_comma d hd

theorem intStr_inj (i j : ℤ) (h : intStr i = intStr j) : i = j := by
  unfold intStr at h
  split at h <;> split at h
  · rename_i hi hj
    simp only [List.cons.injEq, true_and] at h
    have := natStr_inj _ _ h
    omega
  · rename_i hi hj
    exfalso
    have hmem : Char.ofNat 45 ∈ natStr j.natAbs := by
      rw [← h]
      simp
    obtain ⟨d, hd, hdc⟩ := natStr_all_digits _ _ hmem
    exact digitChar_ne_minus d hd hdc.symm
  · rename_i hi hj
    exfalso
    have hmem : Char.ofNat 45 ∈ natStr i.natAbs := by
      rw [h]
      simp
    obtain ⟨d, hd, hdc⟩ := natStr_all_digits _ _ hmem
    exact digitChar_ne_minus d hd hdc.symm
  · rename_i hi hj
    have := natStr_inj _ _ h
    omega

theorem append_comma_inj (a : List Char) :
    ∀ (a2 t t2 : List Char), (∀ c ∈ a, c ≠ ',') → (∀ c ∈ a2, c ≠ ',') →
    a ++ ',' :: t = a2 ++ ',' :: t2 → a = a2 ∧ t = t2 := by
  induction a with
  | nil =>
    intro a2 t t2 _ ha2 h
    cases a2 with
    | nil => simpa using h
    | cons y ys =>
      exfalso
      simp only [List.nil_append, List.cons_append, List.cons.injEq] at h
      exact ha2 y (by simp) h.1.symm
  | cons x xs ih =>
    intro a2 t t2 ha ha2 h
    cases a2 with
    | nil =>
      exfalso
      simp only [List.cons_append, List.nil_append, List.cons.injEq] at h
      exact ha x (by simp) h.1
    | cons y ys =>
      simp only [List.cons_append, List.cons.injEq] at h
      obtain ⟨h1, h2⟩ := ih ys t t2 (fun c hc => ha c (by simp [hc]))
        (fun c hc => ha2 c (by simp [hc])) h.2
      exact ⟨by rw [h.1, h1], h2⟩

theorem keyOf_inj : Function.Injective keyOf := by
  intro t1 t2 heq
  obtain ⟨h1, k1, l1⟩ := t1
  obtain ⟨h2, k2, l2⟩ := t2
  unfold keyOf at heq
  obtain ⟨e1, rest⟩ := append_comma_inj _ _ _ _ (intStr_no_comma _) (intStr_no_comma _) heq
  obtain ⟨e2, e3⟩ := append_comma_inj _ _ _ _ (intStr_no_comma _) (intStr_no_comma _) rest
  simp only [Prod.mk.injEq]
  exact ⟨intStr_inj _ _ e1, intStr_inj _ _ e2, intStr_inj _ _ e3⟩

/-- C7 (amended): for every zone-axis string rejected by the code's
actual criterion — not exactly three comma-separated fields, or a field
that is NaN, or all fields parsing to zero — a successful run substitutes
the default plane (1,0,0), and the stored zone string and both plot
titles reflect `1,0,0`; and whether the analysis aborts does not depend
on the zone-axis string at all, so an invalid plane is never fatal. The
claim's stricter criterion "does not parse to exactly three integers" is
not the implemented one: any three not-all-zero numeric fields are
accepted, integral or not (see the counterexample). -/
theorem C7_invalid_plane_default (jsNum : List Char → Option ℝ)
    (cell : CellParameters) (atoms : List AtomSite) (zs : List Char)
    (out : AnalysisOutput)
    (hinv : zoneInvalid jsNum zs)
    (hout : performCrystallographicAnalysis jsNum cell atoms zs = some out) :
    out.zoneAxis = (1, 0, 0) ∧ out.zoneAxisStr = defaultZoneStr ∧
    out.structureTitle = titlePrefix ++ defaultZoneStr ∧
    out.diffractionTitle = titlePrefix ++ defaultZoneStr ∧
    ∀ zs2, ∃ out2, performCrystallographicAnalysis jsNum cell atoms zs2 = some out2 := by
  simp only [performCrystallographicAnalysis] at hout
  split at hout
  · cases hout
  · rename_i hvalid
    split at hout
    · cases hout
    · rename_i recip hrecip
      cases hout
      have hzp : zoneParse jsNum zs = ((1, 0, 0), defaultZoneStr) := by
        simp only [zoneParse]
        rw [if_pos hinv]
      refine ⟨by rw [hzp], by rw [hzp], by rw [hzp], by rw [hzp], ?_⟩
      intro zs2
      simp only [performCrystallographicAnalysis]
      rw [if_neg hvalid, hrecip]
      exact ⟨_, rfl⟩

theorem lookup_map_keyOf (f : ℤ × ℤ × ℤ → ℝ) (p : ℤ × ℤ × ℤ) :
    ∀ (l : List (ℤ × ℤ × ℤ)), p ∈ l →
      (l.map (fun t => (keyOf t, f t))).lookup (keyOf p) = some (f p) := by
  intro l
  induction l with
  | nil => intro hp; simp at hp
  | cons q qs ih =>
    intro hp
    simp only [List.map_cons, List.lookup]
    by_cases hqp : keyOf q = keyOf p
    · rw [show (keyOf p == keyOf q) = true from beq_iff_eq.mpr hqp.symm]
      show some (f q) = some (f p)
      rw [keyOf_inj hqp]
    · rw [show (keyOf p == keyOf q) = false from
        beq_eq_false_iff_ne.mpr (fun h => hqp h.symm)]
      show List.lookup (keyOf p) (qs.map (fun t => (keyOf t, f t))) = some (f p)
      have hpqs : p ∈ qs := by
        rcases List.mem_cons.mp hp with rfl | h
        · exact absurd rfl hqp
        · exact h
      exact ih hpqs

theorem objGet_map_keyOf (f : ℤ × ℤ × ℤ → ℝ) (l : List (ℤ × ℤ × ℤ)) (p : ℤ × ℤ × ℤ)
    (hp : p ∈ l) :
    objGet (l.map (fun t => (keyOf t, f t))) (keyOf p) = some (f p) := by
  unfold objGet
  rw [← List.map_reverse]
  exact lookup_map_keyOf f p l.reverse (List.mem_reverse.mpr hp)

/-- C10: in every successful analysis the parallel arrays stay
index-aligned — the magnitude array is the per-plane magnitude of the
plane list, the string-keyed structure-factor object yields exactly the
magnitude of each listed plane (the decimal `h,k,l` keys are injective),
the projected coordinates are the projections of each listed plane's
reciprocal vector, and every emitted diffraction spot is labelled by the
exact Miller triple whose magnitude passed the filter, determined its
marker size, and produced its coordinates. -/
theorem C10_parallel_alignment (jsNum : List Char → Option ℝ)
    (cell : CellParameters) (atoms : List AtomSite) (zs : List Char)
    (out : AnalysisOutput)
    (hout : performCrystallographicAnalysis jsNum cell atoms zs = some out) :
    (out.structureFactorMagnitudes =
      out.listofPlanes.map (fun t => structureFactorMagnitude atoms t.1 t.2.1 t.2.2)) ∧
    (∀ t ∈ out.listofPlanes,
      objGet out.structureFactors (keyOf t) =
        some (structureFactorMagnitude atoms t.1 t.2.1 t.2.2)) ∧
    (out.projectedCoords = out.listofPlanes.map (fun t =>
      (dotProduct (gVector out.recip t.1 t.2.1 t.2.2) out.xVector,
       dotProduct (gVector out.recip t.1 t.2.1 t.2.2) out.yVector,
       dotProduct (gVector out.recip t.1 t.2.1 t.2.2) out.normalPlaneVector))) ∧
    (∀ pt ∈ out.diffractionDataPoints, ∃ t, t ∈ out.listofPlanes ∧
      pt.label = keyOf t ∧
      pt.x = dotProduct (gVector out.recip t.1 t.2.1 t.2.2) out.xVector ∧
      pt.y = dotProduct (gVector out.recip t.1 t.2.1 t.2.2) out.yVector ∧
      (structureFactorMagnitude atoms t.1 t.2.1 t.2.2 > 1/1000 ∨
        (t.1 = 0 ∧ t.2.1 = 0 ∧ t.2.2 = 0 ∧
          structureFactorMagnitude atoms t.1 t.2.1 t.2.2 > 0)) ∧
      pt.markerSize = structureFactorMagnitude atoms t.1 t.2.1 t.2.2 /
        magDenom out.structureFactorMagnitudes * 10 + 5) := by
  simp only [performCrystallographicAnalysis] at hout
  split at hout
  · cases hout
  · split at hout
    · cases hout
    · cases hout
      refine ⟨rfl, ?_, rfl, ?_⟩
      · intro t ht
        exact objGet_map_keyOf (fun t => structureFactorMagnitude atoms t.1 t.2.1 t.2.2) _ t ht
      · intro pt hpt
        rw [List.mem_filterMap] at hpt
        obtain ⟨t, ht, hf⟩ := hpt
        split at hf
        · rename_i hcond
          cases hf
          exact ⟨t, ht, rfl, rfl, rfl, hcond, rfl⟩
        · cases hf

theorem directLattice_unit : getDirectLatticeVectors unitCell = idMat3 := by
  simp only [getDirectLatticeVectors, unitCell, deg90_to_rad, Real.cos_pi_div_two,
    Real.sin_pi_div_two, idMat3, Mat3.mk.injEq, Vec3.mk.injEq]
  norm_num

theorem recip_unit : getReciprocalLatticeVectors idMat3 = some idMat3 := by
  simp only [getReciprocalLatticeVectors, crossProduct, dotProduct, vecDiv, idMat3]
  norm_num

theorem hRange_unit : hRange idMat3 = 1 := by
  simp only [hRange, k_max, dotProduct, idMat3]
  norm_num [Real.sqrt_one]

theorem kRange_unit : kRange idMat3 = 1 := by
  simp only [kRange, k_max, dotProduct, idMat3]
  norm_num [Real.sqrt_one]

theorem lRange_unit : lRange idMat3 = 1 := by
  simp only [lRange, k_max, dotProduct, idMat3]
  norm_num [Real.sqrt_one]

theorem sfMag_atom0 (h k l : ℤ) : structureFactorMagnitude [atom0] h k l = 1 := by
  simp only [structureFactorMagnitude, structureFactorRe, structureFactorIm, atom0,
    List.map_cons, List.map_nil, List.sum_cons, List.sum_nil]
  norm_num [Real.sqrt_one]

theorem normalize_e1 : normalizeVector ⟨1, 0, 0⟩ = ⟨1, 0, 0⟩ := by
  have h := normalizeVector_eq_of_sq ⟨1, 0, 0⟩ 1 one_pos (by norm_num)
  simpa using h

theorem normalize_neg_e3 : normalizeVector ⟨0, 0, -1⟩ = ⟨0, 0, -1⟩ := by
  have h := normalizeVector_eq_of_sq ⟨0, 0, -1⟩ 1 one_pos (by norm_num)
  simpa using h

theorem normalize_e2 : normalizeVector ⟨0, 1, 0⟩ = ⟨0, 1, 0⟩ := by
  have h := normalizeVector_eq_of_sq ⟨0, 1, 0⟩ 1 one_pos (by norm_num)
  simpa using h

/-- Evaluation of the analysis on the unit cell and origin atom, for any
zone string whose parse yields the axis (1,0,0) (after scaling: any
positive multiple of it would give the same basis; here exactly (1,0,0)
or the default). -/
theorem perform_unit_eval (jsNum : List Char → Option ℝ) (zs : List Char)
    (za1 : ℝ) (zstr : List Char)
    (hza : 0 < za1)
    (hzp : zoneParse jsNum zs = ((za1, 0, 0), zstr)) :
    performCrystallographicAnalysis jsNum unitCell [atom0] zs =
      some (outUnit (za1, 0, 0) zstr) := by
  have hG : gVector idMat3 za1 0 0 = ⟨za1, 0, 0⟩ := by
    simp only [gVector, idMat3]
    refine Vec3.ext ?_ ?_ ?_ <;> norm_num
  have hnorm : normalizeVector ⟨za1, 0, 0⟩ = ⟨1, 0, 0⟩ := by
    have h := normalizeVector_eq_of_sq ⟨za1, 0, 0⟩ za1 hza (by simp; ring)
    rw [h]
    refine Vec3.ext ?_ ?_ ?_ <;> field_simp
  have hcross1 : crossProduct ⟨0, 1, 0⟩ ⟨1, 0, 0⟩ = ⟨0, 0, -1⟩ := by
    simp only [crossProduct]
    refine Vec3.ext ?_ ?_ ?_ <;> norm_num
  have hcross2 : crossProduct ⟨1, 0, 0⟩ ⟨0, 0, -1⟩ = ⟨0, 1, 0⟩ := by
    simp only [crossProduct]
    refine Vec3.ext ?_ ?_ ?_ <;> norm_num
  have hrec : getReciprocalLatticeVectors (getDirectLatticeVectors unitCell) = some idMat3 := by
    rw [directLattice_unit]
    exact recip_unit
  have hdum : ¬(|((⟨1, 0, 0⟩ : Vec3)).x| < 9/10) := by norm_num
  simp only [performCrystallographicAnalysis]
  rw [if_neg (by simp [unitCell] : ¬(([atom0] : List AtomSite).length = 0 ∨
    unitCell.a = 0 ∨ unitCell.b = 0 ∨ unitCell.c = 0))]
  simp only [hrec, hRange_unit, kRange_unit, lRange_unit, hzp, hG, hnorm, hdum,
    ite_false, hcross1, normalize_neg_e3, hcross2, normalize_e2]
  rfl

theorem zone_abc_invalid : zoneInvalid jsNumW abcStr := by
  have hlen : (zoneNums jsNumW abcStr).length = 1 := rfl
  exact Or.inl (by omega)

theorem zoneParse_abc : zoneParse jsNumW abcStr = ((1, 0, 0), defaultZoneStr) := by
  simp only [zoneParse]
  rw [if_pos zone_abc_invalid]

theorem perform_abc :
    performCrystallographicAnalysis jsNumW unitCell [atom0] abcStr =
      some (outUnit (1, 0, 0) defaultZoneStr) :=
  perform_unit_eval jsNumW abcStr 1 defaultZoneStr one_pos zoneParse_abc

theorem zoneNums_15 : zoneNums jsNumW zstr15 = [some (3/2), some 0, some 0] := rfl

theorem zone_15_valid : ¬zoneInvalid jsNumW zstr15 := by
  intro h
  rcases h with h | h | h
  · rw [zoneNums_15] at h
    simp at h
  · rw [zoneNums_15] at h
    simp at h
  · exact absurd (Option.some_inj.mp (h (some (3/2)) (by rw [zoneNums_15]; simp)))
      (by norm_num)

theorem zoneParse_15 : zoneParse jsNumW zstr15 = ((3/2, 0, 0), zstr15) := by
  simp only [zoneParse]
  rw [if_neg zone_15_valid, zoneNums_15]
  rfl

theorem perform_15 :
    performCrystallographicAnalysis jsNumW unitCell [atom0] zstr15 =
      some (outUnit (3/2, 0, 0) zstr15) :=
  perform_unit_eval jsNumW zstr15 (3/2) zstr15 (by norm_num) zoneParse_15

/-- C7 counterexample: the zone string `1.5,0,0` does not parse to three
integers (its first field is 3/2, which is no integer), yet the analysis
does not substitute the default plane: the run keeps axis (3/2,0,0), the
stored zone string stays `1.5,0,0`, and the titles do not read `1,0,0` —
the code only rejects on field count, NaN, or an all-zero parse, never on
non-integrality. -/
theorem C7_counterexample :
    zoneNums jsNumW zstr15 = [some (3/2), some 0, some 0] ∧
    (∀ n : ℤ, (3/2 : ℝ) ≠ (n : ℝ)) ∧
    performCrystallographicAnalysis jsNumW unitCell [atom0] zstr15 =
      some (outUnit (3/2, 0, 0) zstr15) ∧
    (outUnit (3/2, 0, 0) zstr15).zoneAxis ≠ (1, 0, 0) ∧
    (outUnit (3/2, 0, 0) zstr15).zoneAxisStr ≠ defaultZoneStr ∧
    (outUnit (3/2, 0, 0) zstr15).structureTitle ≠ titlePrefix ++ defaultZoneStr := by
  refine ⟨rfl, ?_, perform_15, ?_, by decide, by decide⟩
  · intro n hn
    have h2 : (3 : ℝ) = 2 * n := by linarith
    have h3 : (3 : ℤ) = 2 * n := by exact_mod_cast h2
    omega
  · intro hcon
    have : (3/2 : ℝ) = 1 := congrArg Prod.fst hcon
    norm_num at this

theorem C7_invalid_plane_default_witness :
    zoneInvalid jsNumW abcStr ∧
    ((outUnit (1, 0, 0) defaultZoneStr).zoneAxis = (1, 0, 0) ∧
     (outUnit (1, 0, 0) defaultZoneStr).zoneAxisStr = defaultZoneStr ∧
     (outUnit (1, 0, 0) defaultZoneStr).structureTitle = titlePrefix ++ defaultZoneStr ∧
     (outUnit (1, 0, 0) defaultZoneStr).diffractionTitle = titlePrefix ++ defaultZoneStr ∧
     ∀ zs2, ∃ out2, performCrystallographicAnalysis jsNumW unitCell [atom0] zs2 = some out2) :=
  ⟨zone_abc_invalid,
   C7_invalid_plane_default jsNumW unitCell [atom0] abcStr _ zone_abc_invalid perform_abc⟩

theorem C10_parallel_alignment_witness :
    performCrystallographicAnalysis jsNumW unitCell [atom0] abcStr =
      some (outUnit (1, 0, 0) defaultZoneStr) ∧
    (((outUnit (1, 0, 0) defaultZoneStr).structureFactorMagnitudes =
      (outUnit (1, 0, 0) defaultZoneStr).listofPlanes.map
        (fun t => structureFactorMagnitude [atom0] t.1 t.2.1 t.2.2)) ∧
    (∀ t ∈ (outUnit (1, 0, 0) defaultZoneStr).listofPlanes,
      objGet (outUnit (1, 0, 0) defaultZoneStr).structureFactors (keyOf t) =
        some (structureFactorMagnitude [atom0] t.1 t.2.1 t.2.2)) ∧
    ((outUnit (1, 0, 0) defaultZoneStr).projectedCoords =
      (outUnit (1, 0, 0) defaultZoneStr).listofPlanes.map (fun t =>
      (dotProduct (gVector (outUnit (1, 0, 0) defaultZoneStr).recip t.1 t.2.1 t.2.2)
        (outUnit (1, 0, 0) defaultZoneStr).xVector,
       dotProduct (gVector (outUnit (1, 0, 0) defaultZoneStr).recip t.1 t.2.1 t.2.2)
        (outUnit (1, 0, 0) defaultZoneStr).yVector,
       dotProduct (gVector (outUnit (1, 0, 0) defaultZoneStr).recip t.1 t.2.1 t.2.2)
        (outUnit (1, 0, 0) defaultZoneStr).normalPlaneVector))) ∧
    (∀ pt ∈ (outUnit (1, 0, 0) defaultZoneStr).diffractionDataPoints, ∃ t,
      t ∈ (outUnit (1, 0, 0) defaultZoneStr).listofPlanes ∧
      pt.label = keyOf t ∧
      pt.x = dotProduct (gVector (outUnit (1, 0, 0) defaultZoneStr).recip t.1 t.2.1 t.2.2)
        (outUnit (1, 0, 0) defaultZoneStr).xVector ∧
      pt.y = dotProduct (gVector (outUnit (1, 0, 0) defaultZoneStr).recip t.1 t.2.1 t.2.2)
        (outUnit (1, 0, 0) defaultZoneStr).yVector ∧
      (structureFactorMagnitude [atom0] t.1 t.2.1 t.2.2 > 1/1000 ∨
        (t.1 = 0 ∧ t.2.1 = 0 ∧ t.2.2 = 0 ∧
          structureFactorMagnitude [atom0] t.1 t.2.1 t.2.2 > 0)) ∧
      pt.markerSize = structureFactorMagnitude [atom0] t.1 t.2.1 t.2.2 /
        magDenom (outUnit (1, 0, 0) defaultZoneStr).structureFactorMagnitudes * 10 + 5)) :=
  ⟨perform_abc,
   C10_parallel_alignment jsNumW unitCell [atom0] abcStr _ perform_abc⟩

end StrFac
